import Mathlib

/-!
Verification development for the OpenAPI spec-to-request pipeline of
`n8n-nodes-openapi`.  The definitions below are a shallow embedding of
`nodes/OpenApi/lib/buildRequestOptions.ts`, `nodes/OpenApi/lib/extractOperations.ts`,
`nodes/OpenApi/lib/schemaToNodeProperties.ts` and the resource-mapper helpers of
`nodes/OpenApi/OpenApi.node.ts`.  JavaScript strings are modelled as `List Char`,
JavaScript objects (`Record<string, T>`) as association lists in insertion order,
and `undefined` either by `Option` (for typed optional fields) or by the
`JsValue.undefined` constructor (for `unknown` values in the parameter bag).
-/

namespace OpenApiNode

/-- Model of a JavaScript string: a list of unicode characters. -/
abbrev Str := List Char

/-- Model of a JavaScript `unknown` value as it flows through the value bag:
`undefined`, a string, a number (integral values suffice for this code base)
or a boolean. -/
inductive JsValue where
  | undefined : JsValue
  | vStr (s : Str) : JsValue
  | vNum (n : Int) : JsValue
  | vBool (b : Bool) : JsValue
deriving DecidableEq, Repr

/-- Model of JavaScript `String(value)` (also the behaviour of template-literal
interpolation): `undefined` prints as `"undefined"`, numbers in decimal,
booleans as `"true"` / `"false"`. -/
def jsToString : JsValue → Str
  | .undefined => "undefined".toList
  | .vStr s => s
  | .vNum n => (toString n).toList
  | .vBool true => "true".toList
  | .vBool false => "false".toList

/-- Model of a JavaScript object used as a string-keyed map, in insertion
order (as `Object.entries` would list it). -/
abbrev Rec (α : Type) := List (Str × α)

/-- Model of property read `r[k]`: the value at the first entry with key `k`. -/
def recGet {α : Type} : Rec α → Str → Option α
  | [], _ => none
  | (k, v) :: r, n => if k = n then some v else recGet r n

/-- Model of property assignment `r[k] = v`: overwrite in place if the key is
present (JavaScript keeps the original insertion position), else append. -/
def recSet {α : Type} : Rec α → Str → α → Rec α
  | [], n, v => [(n, v)]
  | (k, w) :: r, n, v => if k = n then (k, v) :: r else (k, w) :: recSet r n v

/-- Model of `params[name]` on a bag typed `Record<string, unknown>`: an absent
key reads as `undefined`. -/
def bagGet (bag : Rec JsValue) (n : Str) : JsValue :=
  match recGet bag n with
  | some v => v
  | none => .undefined

/-- Characters `encodeURIComponent` leaves unescaped:
`A-Z a-z 0-9 - _ . ! ~ * ' ( )`. -/
def isUnreservedChar (c : Char) : Bool :=
  c.isAlpha || c.isDigit || c ∈ "-_.!~*()".toList || c.toNat = 39

/-- Upper-case hexadecimal digits. -/
def hexDigits : Str := "0123456789ABCDEF".toList

/-- The `n`-th upper-case hexadecimal digit. -/
def hexChar (n : Nat) : Char := hexDigits.getD n '0'

/-- UTF-8 encoding of one unicode scalar value, as a list of byte values. -/
def utf8Bytes (c : Char) : List Nat :=
  let n := c.toNat
  if n < 128 then [n]
  else if n < 2048 then [192 + n / 64, 128 + n % 64]
  else if n < 65536 then [224 + n / 4096, 128 + n / 64 % 64, 128 + n % 64]
  else [240 + n / 262144, 128 + n / 4096 % 64, 128 + n / 64 % 64, 128 + n % 64]

/-- Percent-escape of one byte: `%XX` with upper-case hex. -/
def percentByte (b : Nat) : Str := ['%', hexChar (b / 16), hexChar (b % 16)]

/-- Model of JavaScript `encodeURIComponent`: unreserved characters are kept,
every other character is replaced by the percent-escapes of its UTF-8 bytes
(so a space becomes `%20`, not `+`). -/
def encodeURIComponent (s : Str) : Str :=
  s.flatMap fun c => if isUnreservedChar c then [c] else (utf8Bytes c).flatMap percentByte

/-- UTF-8 bytes of a whole string (model of `Buffer.from(s)`). -/
def utf8Str (s : Str) : List Nat := s.flatMap utf8Bytes

/-- The base64 alphabet. -/
def base64Chars : Str :=
  "ABCDEFGHIJKLMNOPQRSTUVWXYZabcdefghijklmnopqrstuvwxyz0123456789+/".toList

/-- The `n`-th base64 digit. -/
def b64Char (n : Nat) : Char := base64Chars.getD n 'A'

/-- Standard base64 with `=` padding (model of `buf.toString('base64')`). -/
def base64Encode : List Nat → Str
  | [] => []
  | [a] => [b64Char (a / 4), b64Char (a % 4 * 16), '=', '=']
  | [a, b] => [b64Char (a / 4), b64Char (a % 4 * 16 + b / 16), b64Char (b % 16 * 4), '=']
  | a :: b :: c :: r =>
      [b64Char (a / 4), b64Char (a % 4 * 16 + b / 16), b64Char (b % 16 * 4 + c / 64),
        b64Char (c % 64)] ++ base64Encode r

/-- Model of the `Credentials` type of `buildRequestOptions.ts`: every field is
optional. -/
structure Credentials where
  authType : Option Str
  apiKey : Option Str
  apiKeyLocation : Option Str
  apiKeyName : Option Str
  bearerToken : Option Str
  username : Option Str
  password : Option Str
deriving DecidableEq, Repr

/-- Interpolation of a `string | undefined` field into a template literal. -/
def optStr : Option Str → Str
  | none => "undefined".toList
  | some s => s

/-- Coercion of a `string | undefined` field into the `unknown` world of the
query map (assigning `undefined` still creates the key). -/
def jsOfOpt : Option Str → JsValue
  | none => .undefined
  | some s => .vStr s

/-- One step of the scan of `/\{([^}]+)\}/g` over the path template
(`buildUrl` in `buildRequestOptions.ts`).  The second argument is `none` when
the scanner is outside a brace group and `some acc` when it has consumed `{`
followed by the characters `acc` (none of which was `}`).  An empty group
`{}` does not match; a `{` with no later `}` never matches. -/
def fmAux : Str → Option Str → List Str
  | [], _ => []
  | c :: cs, none => if c = '{' then fmAux cs (some []) else fmAux cs none
  | c :: cs, some acc =>
      if c = '}' then
        if acc = [] then fmAux cs none else acc :: fmAux cs none
      else fmAux cs (some (acc ++ [c]))

/-- All matches of the placeholder regex `/\{([^}]+)\}/g` in a path template,
in order: the successive `while ((match = pathParamRegex.exec(path)))` results. -/
def findMatches (s : Str) : List Str := fmAux s none

/-- Is `needle` a prefix of `hay`? -/
def isPre : Str → Str → Bool
  | [], _ => true
  | _ :: _, [] => false
  | a :: as, b :: bs => a = b && isPre as bs

/-- Model of JavaScript `hay.replace(needle, repl)` with a plain string
pattern: replace the first occurrence of `needle` only (the replacement
strings produced by `encodeURIComponent` contain no `$`, so no substitution
patterns arise). -/
def replaceFirst : Str → Str → Str → Str
  | [], _, _ => []
  | c :: cs, needle, repl =>
      if isPre needle (c :: cs) then repl ++ (c :: cs).drop needle.length
      else c :: replaceFirst cs needle repl

/-- The update of the evolving URL for one regex match `n`: substitute the
percent-encoded stringified value when the bag has one, else leave the URL
unchanged. -/
def urlStep (bag : Rec JsValue) (url : Str) (n : Str) : Str :=
  match bagGet bag n with
  | .undefined => url
  | v => replaceFirst url ('{' :: n ++ ['}']) (encodeURIComponent (jsToString v))

/-- The update of the `usedParams` set for one regex match `n`. -/
def usedStep (bag : Rec JsValue) (used : List Str) (n : Str) : List Str :=
  match bagGet bag n with
  | .undefined => used
  | _ => used ++ [n]

/-- One iteration of the `while` loop of `buildUrl`, acting on the pair
(url, usedParams). -/
def stepUrl (bag : Rec JsValue) (acc : Str × List Str) (n : Str) : Str × List Str :=
  match bagGet bag n with
  | .undefined => acc
  | v =>
      (replaceFirst acc.1 ('{' :: n ++ ['}']) (encodeURIComponent (jsToString v)),
        acc.2 ++ [n])

/-- Model of `buildUrl` of `buildRequestOptions.ts`: start from
`baseUrl + path`, scan the path template for `{name}` placeholders, and for
each placeholder whose bag value is not `undefined` replace its first
occurrence in the URL by the percent-encoded stringified value, recording the
name in `usedParams`. -/
def buildUrl (baseUrl path : Str) (params : Rec JsValue) : Str × List Str :=
  (findMatches path).foldl (stepUrl params) (baseUrl ++ path, [])

/-- One iteration of the query-map loop of `buildQueryString`: an entry of the
bag is copied unless its name was substituted into the path or its value is
`undefined` or the empty string. -/
def qsStep (used : List Str) (qs : Rec JsValue) (e : Str × JsValue) : Rec JsValue :=
  if e.1 ∉ used ∧ e.2 ≠ JsValue.undefined ∧ e.2 ≠ JsValue.vStr [] then recSet qs e.1 e.2
  else qs

/-- Model of `buildQueryString` of `buildRequestOptions.ts`: filter the whole
value bag as above, then, when the credentials carry API-key authentication
located in the query, assign the key under `apiKeyName ?? 'api_key'`. -/
def buildQueryString (params : Rec JsValue) (used : List Str)
    (creds : Option Credentials) : Rec JsValue :=
  let qs := params.foldl (qsStep used) []
  match creds with
  | some c =>
      if c.authType = some "apiKey".toList ∧ c.apiKeyLocation = some "query".toList then
        recSet qs (c.apiKeyName.getD "api_key".toList) (jsOfOpt c.apiKey)
      else qs
  | none => qs

/-- Model of `buildHeaders` of `buildRequestOptions.ts`: baseline
`Accept: application/json`; a truthy body content type sets `Content-Type`;
then the `switch` on `credentials.authType` injects at most one
authentication header. -/
def buildHeaders (creds : Option Credentials) (contentType : Option Str) : Rec Str :=
  let headers : Rec Str := [("Accept".toList, "application/json".toList)]
  let headers :=
    match contentType with
    | some ct => if ct = [] then headers else recSet headers "Content-Type".toList ct
    | none => headers
  match creds with
  | none => headers
  | some c =>
      if c.authType = some "apiKey".toList then
        if c.apiKeyLocation = some "header".toList then
          recSet headers (c.apiKeyName.getD "X-API-Key".toList) (c.apiKey.getD [])
        else headers
      else if c.authType = some "bearer".toList then
        recSet headers "Authorization".toList ("Bearer ".toList ++ optStr c.bearerToken)
      else if c.authType = some "basic".toList then
        recSet headers "Authorization".toList
          ("Basic ".toList ++
            base64Encode (utf8Str (optStr c.username ++ [':'] ++ optStr c.password)))
      else headers

/-- Model of the `BodyData` type of `buildRequestOptions.ts`; `data` is either
a mapping (`Record<string, unknown>`) or a raw string. -/
structure BodyData where
  contentType : Option Str
  data : Rec JsValue ⊕ Str
  binaryPropertyName : Option Str
deriving DecidableEq, Repr

/-- Model of the subset of `IHttpRequestOptions` this code produces. -/
structure RequestOptions where
  method : Str
  url : Str
  headers : Rec Str
  qs : Option (Rec JsValue)
  body : Option (Rec JsValue ⊕ Str)
  json : Option Bool
deriving DecidableEq, Repr

/-- Model of `applyBody` of `buildRequestOptions.ts`: dispatch on the declared
body content type (a falsy content type attaches nothing). -/
def applyBody (options : RequestOptions) (bodyData : BodyData) : RequestOptions :=
  match bodyData.contentType with
  | none => options
  | some ct =>
      if ct = [] then options
      else if ct = "application/json".toList then
        match bodyData.data with
        | .inl m =>
            if m = [] then options
            else { options with body := some (.inl m), json := some true }
        | .inr _ => options
      else if ct = "application/xml".toList then
        match bodyData.data with
        | .inr s => if s = [] then options else { options with body := some (.inr s) }
        | .inl _ => options
      else if ct = "application/x-www-form-urlencoded".toList then
        match bodyData.data with
        | .inl m => if m = [] then options else { options with body := some (.inl m) }
        | .inr _ => options
      else if ct = "multipart/form-data".toList then
        match bodyData.data with
        | .inl m =>
            match bodyData.binaryPropertyName with
            | some bp =>
                if bp = [] then { options with body := some (.inl m) }
                else { options with body := some (.inl m), json := some false }
            | none => { options with body := some (.inl m) }
        | .inr _ => options
      else options

/-- The five HTTP methods supported by `extractOperations.ts`. -/
inductive Method where
  | get | post | put | patch | delete
deriving DecidableEq, Repr

/-- Upper-case rendering used for `options.method`. -/
def methodUpper : Method → Str
  | .get => "GET".toList
  | .post => "POST".toList
  | .put => "PUT".toList
  | .patch => "PATCH".toList
  | .delete => "DELETE".toList

/-- Lower-case rendering used in synthesized operation ids. -/
def methodLower : Method → Str
  | .get => "get".toList
  | .post => "post".toList
  | .put => "put".toList
  | .patch => "patch".toList
  | .delete => "delete".toList

/-- The fixed iteration order `HTTP_METHODS` of `extractOperations.ts`. -/
def HTTP_METHODS : List Method := [.get, .post, .put, .patch, .delete]

/-- Model of a dereferenced JSON-schema fragment (`OpenApiSchema`): the fields
this code base reads.  `type` may be a single string or (OpenAPI 3.1) an array
of strings. -/
inductive OpenApiSchema where
  | mk
      (type : Option (Str ⊕ List Str))
      (properties : Option (List (Str × OpenApiSchema)))
      (required : Option (List Str))
      (enum : Option (List JsValue))
      (dflt : Option JsValue)
      (description : Option Str)
      (format : Option Str)

/-- Reads the `type` field. -/
def OpenApiSchema.type : OpenApiSchema → Option (Str ⊕ List Str)
  | .mk t _ _ _ _ _ _ => t

/-- Reads the `properties` field. -/
def OpenApiSchema.properties : OpenApiSchema → Option (List (Str × OpenApiSchema))
  | .mk _ p _ _ _ _ _ => p

/-- Reads the `required` field. -/
def OpenApiSchema.requiredList : OpenApiSchema → Option (List Str)
  | .mk _ _ r _ _ _ _ => r

/-- Reads the `enum` field. -/
def OpenApiSchema.enumList : OpenApiSchema → Option (List JsValue)
  | .mk _ _ _ e _ _ _ => e

/-- Reads the `default` field. -/
def OpenApiSchema.dflt : OpenApiSchema → Option JsValue
  | .mk _ _ _ _ d _ _ => d

/-- Reads the `description` field. -/
def OpenApiSchema.descr : OpenApiSchema → Option Str
  | .mk _ _ _ _ _ d _ => d

/-- Reads the `format` field. -/
def OpenApiSchema.format : OpenApiSchema → Option Str
  | .mk _ _ _ _ _ _ f => f

/-- Model of `ParsedParameter`; `locIn` models the `in` field (the source
casts the raw string unchecked, so it is kept as a string). -/
structure ParsedParameter where
  name : Str
  locIn : Str
  required : Bool
  schema : OpenApiSchema
  description : Str

/-- Model of `ParsedRequestBody` of `extractOperations.ts`. -/
structure ParsedRequestBody where
  contentType : Str
  schema : OpenApiSchema
  required : Bool

/-- Model of `ParsedOperation`. -/
structure ParsedOperation where
  operationId : Str
  method : Method
  path : Str
  summary : Str
  description : Str
  parameters : List ParsedParameter
  requestBody : Option ParsedRequestBody

/-- Model of `buildRequestOptions` of `buildRequestOptions.ts`: build the URL
and the set of path-substituted names, build the query map (attached only when
non-empty, i.e. `Object.keys(qs).length > 0`), build the headers, then apply
the body. -/
def buildRequestOptions (operation : ParsedOperation) (baseUrl : Str)
    (params : Rec JsValue) (bodyData : BodyData)
    (credentials : Option Credentials) : RequestOptions :=
  let u := buildUrl baseUrl operation.path params
  let qs := buildQueryString params u.2 credentials
  let headers := buildHeaders credentials bodyData.contentType
  let options : RequestOptions :=
    { method := methodUpper operation.method
      url := u.1
      headers := headers
      qs := if qs = [] then none else some qs
      body := none
      json := none }
  applyBody options bodyData

/-- Model of `T | ReferenceObject`: either a bare `$ref` object or a real
value. -/
inductive RefOr (α : Type) where
  | ref (r : Str) : RefOr α
  | obj (a : α) : RefOr α

/-- Model of a source-document parameter object. -/
structure OpenApiParameter where
  name : Str
  locIn : Str
  required : Option Bool
  schema : Option OpenApiSchema
  description : Option Str

/-- Model of one entry of a request body's `content` map. -/
structure MediaTypeObject where
  schema : Option OpenApiSchema

/-- Model of a source-document request body object. -/
structure OpenApiRequestBody where
  content : Option (Rec MediaTypeObject)
  required : Option Bool

/-- Model of a source-document operation object. -/
structure OpenApiOperation where
  operationId : Option Str
  summary : Option Str
  description : Option Str
  parameters : Option (List (RefOr OpenApiParameter))
  requestBody : Option (RefOr OpenApiRequestBody)

/-- Model of a path item: one optional operation per supported method, plus
path-level parameters. -/
structure PathItem where
  get : Option OpenApiOperation
  post : Option OpenApiOperation
  put : Option OpenApiOperation
  patch : Option OpenApiOperation
  delete : Option OpenApiOperation
  parameters : Option (List (RefOr OpenApiParameter))

/-- Model of the indexing `pathItem[method]`. -/
def PathItem.opFor (it : PathItem) : Method → Option OpenApiOperation
  | .get => it.get
  | .post => it.post
  | .put => it.put
  | .patch => it.patch
  | .delete => it.delete

/-- Model of the dereferenced document: the `paths` map (entries may be
`undefined`, which the extractor skips). -/
structure OpenApiDocument where
  paths : Option (Rec (Option PathItem))

/-- Model of `parseParameter` of `extractOperations.ts`. -/
def parseParameter (p : OpenApiParameter) : ParsedParameter :=
  { name := p.name
    locIn := p.locIn
    required := p.required.getD false
    schema := p.schema.getD (OpenApiSchema.mk (some (.inl "string".toList)) none none none none none none)
    description := p.description.getD [] }

/-- Model of `allParameters.filter(isParameterObject).map(parseParameter)`:
bare `$ref` parameter entries are dropped silently. -/
def parsedParams (l : List (RefOr OpenApiParameter)) : List ParsedParameter :=
  l.filterMap fun r =>
    match r with
    | .obj p => some (parseParameter p)
    | .ref _ => none

/-- The fixed priority list `SUPPORTED_CONTENT_TYPES` of
`extractOperations.ts`. -/
def SUPPORTED_CONTENT_TYPES : List Str :=
  ["application/json".toList, "application/x-www-form-urlencoded".toList,
    "multipart/form-data".toList, "application/xml".toList]

/-- The `for (const contentType of SUPPORTED_CONTENT_TYPES)` loop of
`extractRequestBody`: take the first candidate whose content entry exists and
has a schema (`if (content?.schema)`). -/
def findSupported (content : Rec MediaTypeObject) (required : Bool) :
    List Str → Option ParsedRequestBody
  | [] => none
  | ct :: rest =>
      match recGet content ct with
      | some mto =>
          match mto.schema with
          | some s => some ⟨ct, s, required⟩
          | none => findSupported content required rest
      | none => findSupported content required rest

/-- Model of `extractRequestBody` of `extractOperations.ts`. -/
def extractRequestBody : Option (RefOr OpenApiRequestBody) → Option ParsedRequestBody
  | none => none
  | some (.ref _) => none
  | some (.obj body) =>
      match body.content with
      | none => none
      | some content => findSupported content (body.required.getD false) SUPPORTED_CONTENT_TYPES

/-- Model of `parseOperation` of `extractOperations.ts`: merge path-level and
operation-level parameters (path-level first), synthesize a fallback
operation id `{method}_{path-with-slashes-replaced}`. -/
def parseOperation (path : Str) (method : Method) (operation : OpenApiOperation)
    (pathLevelParameters : Option (List (RefOr OpenApiParameter))) : ParsedOperation :=
  let allParameters := pathLevelParameters.getD [] ++ operation.parameters.getD []
  { operationId :=
      operation.operationId.getD
        (methodLower method ++ '_' :: path.map fun c => if c = '/' then '_' else c)
    method := method
    path := path
    summary := operation.summary.getD []
    description := operation.description.getD []
    parameters := parsedParams allParameters
    requestBody := extractRequestBody operation.requestBody }

/-- Model of `extractOperations` of `extractOperations.ts`: outer loop over
`Object.entries(spec.paths ?? {})` in key order (skipping `undefined` path
items), inner loop over `HTTP_METHODS` in the fixed order. -/
def extractOperations (spec : OpenApiDocument) : List ParsedOperation :=
  (spec.paths.getD []).flatMap fun pe =>
    match pe.2 with
    | none => []
    | some item =>
        HTTP_METHODS.filterMap fun m =>
          (item.opFor m).map fun op => parseOperation pe.1 m op item.parameters

/-- Model of `toDisplayName` helper step: the global replacement
`/([a-z])([A-Z])/g` → `'$1 $2'`, inserting a space at each lower-to-upper
boundary. -/
def spaceCamel : Str → Str
  | a :: b :: rest =>
      if a.isLower && b.isUpper then a :: ' ' :: spaceCamel (b :: rest)
      else a :: spaceCamel (b :: rest)
  | l => l

/-- Model of `toDisplayName`: insert spaces at camelCase boundaries, then
capitalize the first character (`/^./` → `toUpperCase`). -/
def toDisplayName (name : Str) : Str :=
  match spaceCamel name with
  | [] => []
  | c :: r => c.toUpper :: r

/-- Model of `Array.isArray(schemaType) ? schemaType[0] : schemaType`. -/
def normalizeType : Option (Str ⊕ List Str) → Option Str
  | some (.inl s) => some s
  | some (.inr l) => l.head?
  | none => none

/-- Model of `mapSchemaTypeToN8n` of `schemaToNodeProperties.ts`. -/
def mapSchemaTypeToN8n (t : Option (Str ⊕ List Str)) : Str :=
  match normalizeType t with
  | some s =>
      if s = "integer".toList ∨ s = "number".toList then "number".toList
      else if s = "boolean".toList then "boolean".toList
      else "string".toList
  | none => "string".toList

/-- Model of `getDefaultValue` of `schemaToNodeProperties.ts`. -/
def getDefaultValue (s : OpenApiSchema) : JsValue :=
  match s.dflt with
  | some v => v
  | none =>
      match normalizeType s.type with
      | some t =>
          if t = "integer".toList ∨ t = "number".toList then .vNum 0
          else if t = "boolean".toList then .vBool false
          else .vStr []
      | none => .vStr []

/-- Model of the `INodeProperties` fields this code produces; `showOperation`
models `displayOptions.show.operation = [operationId]` and options are
(label, value) pairs. -/
structure NodeProp where
  displayName : Str
  name : Str
  required : Bool
  dflt : JsValue
  description : Str
  showOperation : Str
  type : Str
  options : Option (List (Str × JsValue))
deriving DecidableEq, Repr

/-- Model of `convertProperty` of `schemaToNodeProperties.ts`: a schema with
an `enum` (any array, JavaScript-truthy) becomes an options field whose labels
are the title-cased stringified values; otherwise the type mapping applies. -/
def convertProperty (name : Str) (schema : OpenApiSchema) (requiredFields : List Str)
    (operationId : Str) : NodeProp :=
  let isRequired := requiredFields.contains name
  match schema.enumList with
  | some vs =>
      { displayName := toDisplayName name
        name := name
        required := isRequired
        dflt := getDefaultValue schema
        description := schema.descr.getD []
        showOperation := operationId
        type := "options".toList
        options := some (vs.map fun v => (toDisplayName (jsToString v), v)) }
  | none =>
      { displayName := toDisplayName name
        name := name
        required := isRequired
        dflt := getDefaultValue schema
        description := schema.descr.getD []
        showOperation := operationId
        type := mapSchemaTypeToN8n schema.type
        options := none }

/-- Model of `schemaToNodeProperties`: empty for a missing schema, a schema
whose `type` is not the literal string `'object'`, or a schema without a
`properties` map; otherwise one field per property in declaration order. -/
def schemaToNodeProperties (schema : Option OpenApiSchema) (operationId : Str) :
    List NodeProp :=
  match schema with
  | none => []
  | some s =>
      if s.type ≠ some (.inl "object".toList) then []
      else
        match s.properties with
        | none => []
        | some props =>
            props.map fun pe => convertProperty pe.1 pe.2 (s.requiredList.getD []) operationId

/-- Model of the `ResourceMapperField` fields produced by
`schemaToResourceMapperFields` in `OpenApi.node.ts`. -/
structure RmField where
  id : Str
  displayName : Str
  required : Bool
  defaultMatch : Bool
  canBeUsedToMatch : Bool
  display : Bool
  type : Str
  options : Option (List (Str × JsValue))
deriving DecidableEq, Repr

/-- Model of `isBinarySchema` of `OpenApi.node.ts`. -/
def isBinarySchema (s : OpenApiSchema) : Bool :=
  if s.format = some "binary".toList ∨ s.format = some "byte".toList then true
  else if s.type = some (.inl "string".toList) ∧ s.format = some "binary".toList then true
  else false

/-- Model of `mapSchemaTypeToFieldType` of `OpenApi.node.ts`: number, boolean
and array/object types map directly; the string/default branch yields
`options` exactly when the schema has an `enum`. -/
def mapSchemaTypeToFieldType (s : OpenApiSchema) : Str :=
  match normalizeType s.type with
  | some t =>
      if t = "integer".toList ∨ t = "number".toList then "number".toList
      else if t = "boolean".toList then "boolean".toList
      else if t = "array".toList ∨ t = "object".toList then "object".toList
      else if (s.enumList).isSome then "options".toList
      else "string".toList
  | none => if (s.enumList).isSome then "options".toList else "string".toList

/-- Model of `schemaToResourceMapperFields` of `OpenApi.node.ts`: note the
option labels are the raw `String(value)`, with no title-casing. -/
def schemaToResourceMapperFields (schema : OpenApiSchema) (contentType : Option Str) :
    List RmField :=
  if schema.type = some (.inl "object".toList) then
    match schema.properties with
    | none => []
    | some props =>
        props.map fun pe =>
          let prop := pe.2
          let isBinaryFile : Bool :=
            decide (contentType = some "multipart/form-data".toList) && isBinarySchema prop
          { id := pe.1
            displayName :=
              toDisplayName pe.1 ++ (if isBinaryFile then " (Binary)".toList else [])
            required := (schema.requiredList.getD []).contains pe.1
            defaultMatch := false
            canBeUsedToMatch := false
            display := true
            type := if isBinaryFile then "string".toList else mapSchemaTypeToFieldType prop
            options := prop.enumList.map fun vs => vs.map fun v => (jsToString v, v) }
  else []

/-! Basic lemmas about record reads and writes. -/

theorem recGet_recSet_self {α : Type} (r : Rec α) (n : Str) (v : α) :
    recGet (recSet r n v) n = some v := by
  induction r with
  | nil => simp [recSet, recGet]
  | cons e r ih =>
      by_cases h : e.1 = n
      · simp [recSet, recGet, h]
      · simp [recSet, recGet, h, ih]

theorem recGet_recSet_ne {α : Type} (r : Rec α) (n m : Str) (v : α) (h : m ≠ n) :
    recGet (recSet r n v) m = recGet r m := by
  have hnm : ¬n = m := fun hc => h hc.symm
  induction r with
  | nil => simp only [recSet, recGet, if_neg hnm]
  | cons e r ih =>
      rcases e with ⟨k, w⟩
      by_cases he : k = n
      · subst he
        have hkm : ¬k = m := hnm
        simp only [recSet, if_pos rfl, recGet, if_neg hkm]
      · simp only [recSet, if_neg he, recGet, ih]

theorem recGet_eq_none_of_not_mem {α : Type} {r : Rec α} {n : Str}
    (h : n ∉ r.map Prod.fst) : recGet r n = none := by
  induction r with
  | nil => rfl
  | cons e r ih =>
      rcases e with ⟨k, w⟩
      rw [List.map_cons, List.mem_cons] at h
      push_neg at h
      rw [recGet, if_neg (fun hc => h.1 hc.symm)]
      exact ih h.2

theorem not_mem_of_recGet_eq_none {α : Type} {r : Rec α} {n : Str}
    (h : recGet r n = none) : n ∉ r.map Prod.fst := by
  induction r with
  | nil => simp
  | cons e r ih =>
      rcases e with ⟨k, w⟩
      rw [recGet] at h
      by_cases hk : k = n
      · rw [if_pos hk] at h
        cases h
      · rw [if_neg hk] at h
        rw [List.map_cons, List.mem_cons]
        rintro (hc | hc)
        · exact hk hc.symm
        · exact ih h hc

theorem recSet_fresh {α : Type} (r : Rec α) (n : Str) (v : α)
    (h : recGet r n = none) : recSet r n v = r ++ [(n, v)] := by
  induction r with
  | nil => simp [recSet]
  | cons e r ih =>
      rcases e with ⟨k, w⟩
      by_cases he : k = n
      · rw [recGet, if_pos he] at h
        exact absurd h (by simp)
      · rw [recGet, if_neg he] at h
        simp only [recSet, if_neg he, List.cons_append, List.cons.injEq, true_and]
        exact ih h

/-! Lemmas about the characters produced by `encodeURIComponent`. -/

theorem hexChar_mem (n : Nat) : hexChar n ∈ hexDigits := by
  by_cases h : n < 16
  · interval_cases n <;> decide
  · have hlen : hexDigits.length ≤ n := by
      have : hexDigits.length = 16 := by decide
      omega
    rw [hexChar, List.getD_eq_default _ _ hlen]
    decide

theorem percentByte_chars {b : Nat} {c : Char} (h : c ∈ percentByte b) :
    c = '%' ∨ c ∈ hexDigits := by
  simp only [percentByte, List.mem_cons, List.not_mem_nil, or_false] at h
  rcases h with h | h | h
  · exact Or.inl h
  · exact Or.inr (h ▸ hexChar_mem _)
  · exact Or.inr (h ▸ hexChar_mem _)

theorem encode_no_brace {s : Str} {c : Char} (h : c ∈ encodeURIComponent s) :
    c ≠ '{' := by
  intro hc
  subst hc
  rcases List.mem_flatMap.1 h with ⟨a, -, ha⟩
  by_cases hu : isUnreservedChar a
  · rw [if_pos hu] at ha
    rcases List.mem_singleton.1 ha with rfl
    exact absurd hu (by decide)
  · rw [if_neg hu] at ha
    rcases List.mem_flatMap.1 ha with ⟨b, -, hb⟩
    rcases percentByte_chars hb with h1 | h1
    · exact absurd h1 (by decide)
    · exact absurd h1 (by decide)

/-! A structural view of path templates: a well-formed template is a sequence
of literal chunks (containing no `{`) and placeholders `{name}` whose names
are non-empty and brace-free.  Every real OpenAPI path template has this
shape; `render` flattens it back to the string the code receives. -/

/-- One piece of a path template. -/
inductive TplPart where
  | lit (s : Str) : TplPart
  | par (n : Str) : TplPart
deriving DecidableEq, Repr

/-- Flattening of one template piece. -/
def renderPart : TplPart → Str
  | .lit s => s
  | .par n => '{' :: n ++ ['}']

/-- Flattening of a template. -/
def render (ps : List TplPart) : Str := ps.flatMap renderPart

/-- Well-formedness of one template piece. -/
def wfPart : TplPart → Prop
  | .lit s => '{' ∉ s
  | .par n => n ≠ [] ∧ '{' ∉ n ∧ '}' ∉ n

instance : DecidablePred wfPart := fun p => by
  cases p <;> (unfold wfPart; infer_instance)

/-- Well-formedness of a template. -/
def wfTpl (ps : List TplPart) : Prop := ∀ p ∈ ps, wfPart p

instance (ps : List TplPart) : Decidable (wfTpl ps) :=
  List.decidableBAll _ ps

/-- The placeholder names of a template, in order. -/
def paramNames (ps : List TplPart) : List Str :=
  ps.flatMap fun p =>
    match p with
    | .par n => [n]
    | .lit _ => []

/-- The URL text a template piece contributes after `buildUrl` ran: a
placeholder with a present value becomes its percent-encoded stringified
value, one with an absent value stays literal. -/
def subPart (bag : Rec JsValue) : TplPart → Str
  | .lit s => s
  | .par n =>
      match bagGet bag n with
      | .undefined => '{' :: n ++ ['}']
      | v => encodeURIComponent (jsToString v)

/-- The URL text of a whole template after substitution. -/
def renderSub (bag : Rec JsValue) (ps : List TplPart) : Str :=
  ps.flatMap (subPart bag)

/-! The regex scan of a rendered well-formed template finds exactly its
placeholder names, in order. -/

theorem fmAux_append_none {s : Str} (t : Str) (hs : '{' ∉ s) :
    fmAux (s ++ t) none = fmAux t none := by
  induction s with
  | nil => rfl
  | cons c s ih =>
      rw [List.mem_cons, not_or] at hs
      rw [List.cons_append, fmAux, if_neg (fun hc => hs.1 hc.symm)]
      exact ih hs.2

theorem fmAux_collect {n : Str} (t : Str) (acc : Str) (hn : '}' ∉ n) :
    fmAux (n ++ '}' :: t) (some acc) =
      if acc ++ n = [] then fmAux t none else (acc ++ n) :: fmAux t none := by
  induction n generalizing acc with
  | nil =>
      simp only [List.nil_append, List.append_nil]
      rw [fmAux, if_pos rfl]
  | cons c n ih =>
      rw [List.mem_cons, not_or] at hn
      rw [List.cons_append, fmAux, if_neg (fun hc => hn.1 hc.symm), ih (acc ++ [c]) hn.2]
      have h1 : acc ++ [c] ++ n ≠ [] := by simp
      have h2 : acc ++ c :: n ≠ [] := by simp
      rw [if_neg h1, if_neg h2]
      simp

theorem findMatches_render {ps : List TplPart} (h : wfTpl ps) :
    findMatches (render ps) = paramNames ps := by
  induction ps with
  | nil => rfl
  | cons p ps ih =>
      have hp : wfPart p := h p (List.mem_cons_self p ps)
      have hps : wfTpl ps := fun q hq => h q (List.mem_cons_of_mem p hq)
      cases p with
      | lit s =>
          unfold findMatches at *
          rw [render, List.flatMap_cons, renderPart, fmAux_append_none _ hp, ← render]
          rw [paramNames, List.flatMap_cons, ih hps, paramNames]
          simp
      | par n =>
          obtain ⟨hne, -, hnr⟩ := hp
          unfold findMatches at *
          rw [render, List.flatMap_cons]
          simp only [renderPart]
          have hshape : ('{' :: n ++ ['}']) ++ ps.flatMap renderPart
              = '{' :: (n ++ '}' :: ps.flatMap renderPart) := by simp
          rw [hshape, fmAux, if_pos rfl, fmAux_collect _ _ hnr,
            if_neg (by simpa using hne), List.nil_append]
          simpa [paramNames] using congrArg (List.cons n) (ih hps)

/-! Lemmas about `replaceFirst`: where the first occurrence of a placeholder
needle can sit in the evolving URL. -/

theorem isPre_self_append (n t : Str) : isPre n (n ++ t) = true := by
  induction n with
  | nil => rfl
  | cons c n ih => simp [isPre, ih]

theorem replaceFirst_append_skip {pre : Str} (hpre : '{' ∉ pre) (t m r : Str) :
    replaceFirst (pre ++ t) ('{' :: m) r = pre ++ replaceFirst t ('{' :: m) r := by
  induction pre with
  | nil => rfl
  | cons c cs ih =>
      rw [List.mem_cons, not_or] at hpre
      rw [List.cons_append, replaceFirst]
      rw [show isPre ('{' :: m) (c :: (cs ++ t)) = false by
        simp only [isPre]
        simp only [Bool.and_eq_false_iff, decide_eq_false_iff_not]
        exact Or.inl hpre.1]
      simp only [Bool.false_eq_true, if_false, List.cons_append]
      rw [ih hpre.2]

theorem replaceFirst_here (c : Char) (m t r : Str) :
    replaceFirst ((c :: m) ++ t) (c :: m) r = r ++ t := by
  rw [List.cons_append, replaceFirst]
  rw [show isPre (c :: m) (c :: (m ++ t)) = true by simp [isPre, isPre_self_append]]
  simp [List.drop_left]

theorem isPre_name_ne {m n : Str} (t : Str) (hmn : m ≠ n) (hm : '}' ∉ m)
    (hn : '}' ∉ n) : isPre (m ++ ['}']) (n ++ '}' :: t) = false := by
  induction m generalizing n with
  | nil =>
      cases n with
      | nil => exact absurd rfl hmn
      | cons b n' =>
          rw [List.mem_cons, not_or] at hn
          simp only [List.nil_append, List.cons_append, isPre]
          simp [hn.1]
  | cons a m' ih =>
      rw [List.mem_cons, not_or] at hm
      cases n with
      | nil =>
          simp only [List.nil_append, List.cons_append, isPre]
          simp only [Bool.and_eq_false_iff, decide_eq_false_iff_not]
          exact Or.inl fun hc => hm.1 hc.symm
      | cons b n' =>
          rw [List.mem_cons, not_or] at hn
          by_cases hab : a = b
          · subst hab
            have hmn' : m' ≠ n' := fun hc => hmn (by rw [hc])
            simp [isPre, ih hmn' hm.2 hn.2]
          · simp [isPre, hab]

theorem replaceFirst_skip_par {n m : Str} (t r : Str) (hnm : n ≠ m)
    (hm : '}' ∉ m) (hn : '}' ∉ n) (hnb : '{' ∉ n) :
    replaceFirst (('{' :: n ++ ['}']) ++ t) ('{' :: (m ++ ['}'])) r
      = ('{' :: n ++ ['}']) ++ replaceFirst t ('{' :: (m ++ ['}'])) r := by
  have hshape : ('{' :: n ++ ['}']) ++ t = '{' :: (n ++ '}' :: t) := by simp
  rw [hshape, replaceFirst]
  rw [show isPre ('{' :: (m ++ ['}'])) ('{' :: (n ++ '}' :: t)) = false by
    simp [isPre, isPre_name_ne t (fun hc => hnm hc.symm) hm hn]]
  simp only [Bool.false_eq_true, if_false]
  rw [replaceFirst_append_skip hnb ('}' :: t) (m ++ ['}']) r, replaceFirst]
  rw [show isPre ('{' :: (m ++ ['}'])) ('}' :: t) = false by simp [isPre]]
  simp

/-- A prefix of the evolving URL that `replaceFirst` is guaranteed to walk
past, for every needle `{m}` whose name has a present value and no `}`. -/
def SkipPre (bag : Rec JsValue) (u : Str) : Prop :=
  ∀ m t r, '}' ∉ m → bagGet bag m ≠ JsValue.undefined →
    replaceFirst (u ++ t) ('{' :: (m ++ ['}'])) r
      = u ++ replaceFirst t ('{' :: (m ++ ['}'])) r

theorem skipPre_append {bag : Rec JsValue} {u v : Str} (hu : SkipPre bag u)
    (hv : SkipPre bag v) : SkipPre bag (u ++ v) := by
  intro m t r hm hdef
  rw [List.append_assoc, hu m (v ++ t) r hm hdef, hv m t r hm hdef,
    List.append_assoc]

theorem skipPre_of_no_brace {bag : Rec JsValue} {u : Str} (hu : '{' ∉ u) :
    SkipPre bag u := by
  intro m t r _ _
  exact replaceFirst_append_skip hu t (m ++ ['}']) r

theorem skipPre_encode {bag : Rec JsValue} (s : Str) :
    SkipPre bag (encodeURIComponent s) :=
  skipPre_of_no_brace fun hc => encode_no_brace hc rfl

theorem skipPre_par_undef {bag : Rec JsValue} {n : Str} (hwf : wfPart (.par n))
    (hundef : bagGet bag n = JsValue.undefined) : SkipPre bag ('{' :: n ++ ['}']) := by
  intro m t r hm hdef
  obtain ⟨-, hnb, hnr⟩ := hwf
  exact replaceFirst_skip_par t r (fun hc => hdef (hc ▸ hundef)) hm hnr hnb

/-! The `while` loop of `buildUrl`, described structurally. -/

theorem urlStep_def (bag : Rec JsValue) (u n : Str) :
    urlStep bag u n =
      if bagGet bag n = JsValue.undefined then u
      else replaceFirst u ('{' :: n ++ ['}'])
        (encodeURIComponent (jsToString (bagGet bag n))) := by
  cases h : bagGet bag n <;> simp [urlStep, h]

theorem usedStep_def (bag : Rec JsValue) (w : List Str) (n : Str) :
    usedStep bag w n = if bagGet bag n = JsValue.undefined then w else w ++ [n] := by
  cases h : bagGet bag n <;> simp [usedStep, h]

theorem subPart_par_def (bag : Rec JsValue) (n : Str) :
    subPart bag (.par n) =
      if bagGet bag n = JsValue.undefined then '{' :: n ++ ['}']
      else encodeURIComponent (jsToString (bagGet bag n)) := by
  cases h : bagGet bag n <;> simp [subPart, h]

theorem stepUrl_split (bag : Rec JsValue) (acc : Str × List Str) (n : Str) :
    stepUrl bag acc n = (urlStep bag acc.1 n, usedStep bag acc.2 n) := by
  cases h : bagGet bag n <;> simp [stepUrl, urlStep, usedStep, h]

theorem foldl_stepUrl_split (bag : Rec JsValue) (l : List Str) :
    ∀ u w, l.foldl (stepUrl bag) (u, w)
      = (l.foldl (urlStep bag) u, l.foldl (usedStep bag) w) := by
  induction l with
  | nil => intro u w; rfl
  | cons n l ih =>
      intro u w
      rw [List.foldl_cons, List.foldl_cons, List.foldl_cons, stepUrl_split]
      exact ih _ _

theorem foldl_usedStep (bag : Rec JsValue) (l : List Str) :
    ∀ w, l.foldl (usedStep bag) w
      = w ++ l.filter fun n => decide (bagGet bag n ≠ JsValue.undefined) := by
  induction l with
  | nil => intro w; simp
  | cons n l ih =>
      intro w
      rw [List.foldl_cons, usedStep_def, List.filter_cons]
      by_cases h : bagGet bag n = JsValue.undefined
      · simp only [h, if_pos rfl, ih]
        simp [h]
      · simp only [if_neg h, ih]
        simp [h]

theorem paramNames_cons_lit (s : Str) (ps : List TplPart) :
    paramNames (.lit s :: ps) = paramNames ps := by
  simp [paramNames]

theorem paramNames_cons_par (n : Str) (ps : List TplPart) :
    paramNames (.par n :: ps) = n :: paramNames ps := by
  simp [paramNames]

theorem render_cons (p : TplPart) (ps : List TplPart) :
    render (p :: ps) = renderPart p ++ render ps := by
  simp [render]

theorem renderSub_cons (bag : Rec JsValue) (p : TplPart) (ps : List TplPart) :
    renderSub bag (p :: ps) = subPart bag p ++ renderSub bag ps := by
  simp [renderSub]

theorem urlFold {bag : Rec JsValue} :
    ∀ (todo : List TplPart) (u : Str), wfTpl todo → SkipPre bag u →
      (paramNames todo).foldl (urlStep bag) (u ++ render todo)
        = u ++ renderSub bag todo := by
  intro todo
  induction todo with
  | nil => intro u _ _; simp [render, renderSub, paramNames]
  | cons p ps ih =>
      intro u hwf hu
      have hp : wfPart p := hwf p (List.mem_cons_self p ps)
      have hps : wfTpl ps := fun q hq => hwf q (List.mem_cons_of_mem p hq)
      cases p with
      | lit s =>
          rw [paramNames_cons_lit, render_cons, renderPart, renderSub_cons, subPart]
          rw [show u ++ (s ++ render ps) = (u ++ s) ++ render ps by simp]
          rw [ih (u ++ s) hps (skipPre_append hu (skipPre_of_no_brace hp))]
          simp
      | par n =>
          rw [paramNames_cons_par, render_cons, renderPart, renderSub_cons,
            List.foldl_cons, urlStep_def]
          by_cases hdef : bagGet bag n = JsValue.undefined
          · rw [if_pos hdef, subPart_par_def, if_pos hdef]
            rw [show u ++ (('{' :: n ++ ['}']) ++ render ps)
              = (u ++ ('{' :: n ++ ['}'])) ++ render ps by simp]
            rw [ih _ hps (skipPre_append hu (skipPre_par_undef hp hdef))]
            simp
          · rw [if_neg hdef, subPart_par_def, if_neg hdef]
            obtain ⟨-, -, hnr⟩ := hp
            rw [show ('{' :: n ++ ['}']) = '{' :: (n ++ ['}']) by simp] at *
            rw [hu n (('{' :: (n ++ ['}'])) ++ render ps) _ hnr hdef]
            rw [show ('{' :: (n ++ ['}'])) ++ render ps
              = ('{' :: (n ++ ['}'])) ++ render ps from rfl]
            rw [replaceFirst_here '{' (n ++ ['}']) (render ps) _]
            rw [show u ++ (encodeURIComponent (jsToString (bagGet bag n)) ++ render ps)
              = (u ++ encodeURIComponent (jsToString (bagGet bag n))) ++ render ps by simp]
            rw [ih _ hps (skipPre_append hu (skipPre_encode _))]
            simp

/-- Structural description of `buildUrl` on a well-formed template: the URL is
`baseUrl` followed by the template with every placeholder that has a present
value replaced by its percent-encoded stringified value, and `usedParams`
collects exactly the placeholder names with present values, in order. -/
theorem buildUrl_eq {bag : Rec JsValue} {base : Str} {ps : List TplPart}
    (hb : '{' ∉ base) (hwf : wfTpl ps) :
    buildUrl base (render ps) bag
      = (base ++ renderSub bag ps,
          (paramNames ps).filter fun n => decide (bagGet bag n ≠ JsValue.undefined)) := by
  rw [buildUrl, findMatches_render hwf, foldl_stepUrl_split]
  rw [urlFold ps base hwf (skipPre_of_no_brace hb), foldl_usedStep]
  simp

/-! Lemmas about the query-map loop. -/

/-- The Boolean form of the filter applied to one bag entry by
`buildQueryString`. -/
def qsKeep (used : List Str) (e : Str × JsValue) : Bool :=
  decide (e.1 ∉ used) && decide (e.2 ≠ JsValue.undefined) && decide (e.2 ≠ JsValue.vStr [])

theorem qsFold {used : List Str} :
    ∀ (bag : Rec JsValue) (qs0 : Rec JsValue), (bag.map Prod.fst).Nodup →
      (∀ n ∈ bag.map Prod.fst, n ∉ qs0.map Prod.fst) →
      bag.foldl (qsStep used) qs0 = qs0 ++ bag.filter (qsKeep used) := by
  intro bag
  induction bag with
  | nil => intro qs0 _ _; simp
  | cons e bag ih =>
      intro qs0 hnd hdisj
      rcases e with ⟨n, v⟩
      rw [List.map_cons] at hnd hdisj
      have hn0 : n ∉ qs0.map Prod.fst := hdisj n (List.mem_cons_self _ _)
      have hnbag : n ∉ bag.map Prod.fst := by
        intro hc
        exact (List.nodup_cons.1 hnd).1 hc
      rw [List.foldl_cons, List.filter_cons]
      by_cases hkeep : n ∉ used ∧ v ≠ JsValue.undefined ∧ v ≠ JsValue.vStr []
      · have hb : qsKeep used (n, v) = true := by
          simp [qsKeep, hkeep.1, hkeep.2.1, hkeep.2.2]
        rw [qsStep, if_pos hkeep, recSet_fresh qs0 n v (recGet_eq_none_of_not_mem hn0)]
        rw [ih (qs0 ++ [(n, v)]) (List.nodup_cons.1 hnd).2 ?_, hb]
        · simp
        · intro k hk
          rw [List.map_append, List.mem_append]
          rintro (hc | hc)
          · exact hdisj k (List.mem_cons_of_mem _ hk) hc
          · simp at hc
            subst hc
            exact hnbag hk
      · have hb : qsKeep used (n, v) = false := by
          simp only [qsKeep]
          by_contra hcon
          rw [Bool.not_eq_false, Bool.and_eq_true, Bool.and_eq_true] at hcon
          exact hkeep ⟨of_decide_eq_true hcon.1.1, of_decide_eq_true hcon.1.2,
            of_decide_eq_true hcon.2⟩
        rw [qsStep, if_neg hkeep, ih qs0 (List.nodup_cons.1 hnd).2
          (fun k hk => hdisj k (List.mem_cons_of_mem _ hk)), hb]
        simp

/-- Whether the credentials trigger the API-key-in-query branch of
`buildQueryString`. -/
def isApiKeyQueryAuth : Option Credentials → Bool
  | some c =>
      decide (c.authType = some "apiKey".toList ∧ c.apiKeyLocation = some "query".toList)
  | none => false

theorem buildQueryString_no_auth {creds : Option Credentials}
    (h : isApiKeyQueryAuth creds = false) (bag : Rec JsValue) (used : List Str) :
    buildQueryString bag used creds = bag.foldl (qsStep used) [] := by
  cases creds with
  | none => rfl
  | some c =>
      rw [isApiKeyQueryAuth, decide_eq_false_iff_not] at h
      rw [buildQueryString, if_neg h]

theorem buildQueryString_auth {c : Credentials}
    (h : c.authType = some "apiKey".toList ∧ c.apiKeyLocation = some "query".toList)
    (bag : Rec JsValue) (used : List Str) :
    buildQueryString bag used (some c)
      = recSet (bag.foldl (qsStep used) []) (c.apiKeyName.getD "api_key".toList)
          (jsOfOpt c.apiKey) := by
  rw [buildQueryString, if_pos h]

theorem buildQueryString_filter {used : List Str} {bag : Rec JsValue}
    {creds : Option Credentials} (hnd : (bag.map Prod.fst).Nodup)
    (h : isApiKeyQueryAuth creds = false) :
    buildQueryString bag used creds = bag.filter (qsKeep used) := by
  rw [buildQueryString_no_auth h, qsFold bag [] hnd (fun n _ => List.not_mem_nil n)]
  simp

/-! `applyBody` only touches the `body` and `json` fields. -/

theorem applyBody_fields (o : RequestOptions) (b : BodyData) :
    (applyBody o b).url = o.url ∧ (applyBody o b).headers = o.headers ∧
    (applyBody o b).qs = o.qs ∧ (applyBody o b).method = o.method := by
  rcases b with ⟨ct, data, bp⟩
  cases ct with
  | none => exact ⟨rfl, rfl, rfl, rfl⟩
  | some ct =>
      simp only [applyBody]
      repeat' split
      all_goals simp

/-- The four request fields that `applyBody` does not touch, read off
`buildRequestOptions`. -/
theorem buildRequestOptions_proj (op : ParsedOperation) (base : Str)
    (bag : Rec JsValue) (bd : BodyData) (creds : Option Credentials) :
    (buildRequestOptions op base bag bd creds).url = (buildUrl base op.path bag).1
      ∧ (buildRequestOptions op base bag bd creds).headers
          = buildHeaders creds bd.contentType
      ∧ (buildRequestOptions op base bag bd creds).qs
          = (if buildQueryString bag (buildUrl base op.path bag).2 creds = [] then none
             else some (buildQueryString bag (buildUrl base op.path bag).2 creds))
      ∧ (buildRequestOptions op base bag bd creds).method = methodUpper op.method := by
  unfold buildRequestOptions
  exact applyBody_fields _ bd

/-! Concrete fixtures used by witnesses and counterexamples. -/

/-- The default parameter schema `{ type: 'string' }`. -/
def strSchema : OpenApiSchema :=
  .mk (some (.inl "string".toList)) none none none none none none

/-- An empty body payload (no declared content type). -/
def noBody : BodyData := ⟨none, .inl [], none⟩

/-- A request body offering `application/json` without a schema and
`application/xml` with one. -/
def rbBoth : OpenApiRequestBody :=
  ⟨some [("application/json".toList, ⟨none⟩), ("application/xml".toList, ⟨some strSchema⟩)],
    some true⟩

/-- A request body with a JSON schema. -/
def rbJson : OpenApiRequestBody :=
  ⟨some [("application/json".toList, ⟨some strSchema⟩)], some true⟩

/-- The parsed body `rbJson` yields. -/
def pbJson : ParsedRequestBody := ⟨"application/json".toList, strSchema, true⟩

/-! Lemmas about `findSupported` and `extractRequestBody`. -/

/-- Does the content map offer a schema under the given content type? -/
def hasSchemaAt (content : Rec MediaTypeObject) (ct : Str) : Bool :=
  match recGet content ct with
  | some m => m.schema.isSome
  | none => false

theorem findSupported_map (content : Rec MediaTypeObject) (req : Bool) :
    ∀ l : List Str, (findSupported content req l).map (fun b => b.contentType)
      = l.find? (hasSchemaAt content) := by
  intro l
  induction l with
  | nil => rfl
  | cons ct rest ih =>
      cases hg : recGet content ct with
      | none =>
          simp [findSupported, List.find?, hasSchemaAt, hg, ih]
      | some m =>
          cases hs : m.schema with
          | none => simp [findSupported, List.find?, hasSchemaAt, hg, hs, ih]
          | some s => simp [findSupported, List.find?, hasSchemaAt, hg, hs]

theorem findSupported_sound (content : Rec MediaTypeObject) (req : Bool) :
    ∀ (l : List Str) (pb : ParsedRequestBody), findSupported content req l = some pb →
      pb.required = req
        ∧ ∃ m, recGet content pb.contentType = some m ∧ m.schema = some pb.schema := by
  intro l
  induction l with
  | nil => intro pb h; cases h
  | cons ct rest ih =>
      intro pb h
      cases hg : recGet content ct with
      | none =>
          rw [findSupported, hg] at h
          exact ih pb h
      | some m =>
          cases hs : m.schema with
          | none =>
              simp only [findSupported, hg, hs] at h
              exact ih pb h
          | some s =>
              simp only [findSupported, hg, hs] at h
              cases h
              exact ⟨rfl, m, hg, hs⟩

/-- Claim C4 (counterexample): `application/json` is present in the content
map of `rbBoth`, yet the extracted body is the lower-priority
`application/xml`, because the JSON entry has no schema and the loop requires
`content?.schema`. -/
theorem claim_C4_counterexample :
    "application/json".toList ∈ (rbBoth.content.getD []).map Prod.fst
      ∧ (extractRequestBody (some (.obj rbBoth))).map (fun b => b.contentType)
          = some "application/xml".toList := by
  constructor
  · decide
  · rfl

/-- Claim C4 (amended): the extracted body is the first content type of the
priority list that is present in the content map WITH a schema (entries
without a schema are skipped); a missing body, a `$ref`-only body, or a body
none of whose supported entries has a schema yields no body; the extracted
schema and required flag come from the winning entry. -/
theorem claim_C4_amended :
    extractRequestBody none = none
      ∧ (∀ r, extractRequestBody (some (.ref r)) = none)
      ∧ (∀ body : OpenApiRequestBody,
          (extractRequestBody (some (.obj body))).map (fun b => b.contentType)
            = SUPPORTED_CONTENT_TYPES.find? (hasSchemaAt (body.content.getD [])))
      ∧ (∀ (body : OpenApiRequestBody) (pb : ParsedRequestBody),
          extractRequestBody (some (.obj body)) = some pb →
            pb.required = body.required.getD false
              ∧ ∃ m, recGet (body.content.getD []) pb.contentType = some m
                  ∧ m.schema = some pb.schema) := by
  refine ⟨rfl, fun r => rfl, ?_, ?_⟩
  · intro body
    rw [extractRequestBody]
    cases hc : body.content with
    | none => rfl
    | some content => exact findSupported_map content _ _
  · intro body pb h
    rw [extractRequestBody] at h
    cases hc : body.content with
    | none =>
        rw [hc] at h
        exact Option.noConfusion h
    | some content =>
        rw [hc] at h
        exact findSupported_sound content _ _ pb h

/-- Claim C4 witness: on a body offering only `application/json` with a
schema, the characterization and the required-flag clause instantiate. -/
theorem claim_C4_witness :
    (extractRequestBody (some (.obj rbJson))).map (fun b => b.contentType)
        = SUPPORTED_CONTENT_TYPES.find? (hasSchemaAt (rbJson.content.getD []))
      ∧ pbJson.required = rbJson.required.getD false :=
  ⟨claim_C4_amended.2.2.1 rbJson, (claim_C4_amended.2.2.2 rbJson pbJson rfl).1⟩

/-! Lemmas for the operation-extraction order (claim C8). -/

theorem filterMap_opmap_eq_filter_map {α β γ : Type} (g : α → Option γ) (h : α → β)
    (l : List α) :
    (l.filterMap fun a => (g a).map fun _ => h a)
      = (l.filter fun a => (g a).isSome).map h := by
  induction l with
  | nil => rfl
  | cons a l ih =>
      cases hg : g a with
      | none => simp [List.filterMap_cons, List.filter_cons, hg, ih]
      | some c => simp [List.filterMap_cons, List.filter_cons, hg, ih]

/-- The per-path-item contribution to the (path, method) projection of the
operation list. -/
def pairsOf (pe : Str × Option PathItem) : List (Str × Method) :=
  match pe.2 with
  | none => []
  | some it => (HTTP_METHODS.filter fun m => (it.opFor m).isSome).map fun m => (pe.1, m)

theorem extractOperations_pairs (d : OpenApiDocument) :
    ((extractOperations d).map fun o => (o.path, o.method))
      = (d.paths.getD []).flatMap pairsOf := by
  rw [extractOperations, List.map_flatMap]
  apply List.flatMap_congr
  intro pe _
  rcases pe with ⟨p, item⟩
  cases item with
  | none => rfl
  | some it =>
      show ((HTTP_METHODS.filterMap fun m =>
          (it.opFor m).map fun op => parseOperation p m op it.parameters).map
            fun o => (o.path, o.method))
        = (HTTP_METHODS.filter fun m => (it.opFor m).isSome).map fun m => (p, m)
      rw [List.map_filterMap]
      rw [show (fun m => ((it.opFor m).map fun op => parseOperation p m op it.parameters).map
            fun o => (o.path, o.method))
          = fun m => (it.opFor m).map fun _ => (p, m) from
        funext fun m => by cases it.opFor m <;> rfl]
      exact filterMap_opmap_eq_filter_map _ _ _

theorem countP_filter_eq_one {α : Type} [DecidableEq α] (q : α → Bool) (m : α) :
    ∀ l : List α, l.Nodup →
      ((l.filter q).countP fun a => decide (a = m))
        = if m ∈ l ∧ q m then 1 else 0 := by
  intro l
  induction l with
  | nil => intro _; simp
  | cons a l ih =>
      intro hnd
      rw [List.filter_cons]
      have hnd' := (List.nodup_cons.1 hnd).2
      by_cases hq : q a
      · rw [if_pos hq, List.countP_cons, ih hnd']
        by_cases ham : a = m
        · subst ham
          rw [if_neg (fun hc : a ∈ l ∧ q a = true => (List.nodup_cons.1 hnd).1 hc.1)]
          simp [hq]
        · have h1 : decide (a = m) = false := by simp [ham]
          rw [h1]
          have h2 : (if (false = true) then 1 else 0) = 0 := rfl
          rw [h2, Nat.add_zero]
          by_cases hm : m ∈ l ∧ q m
          · rw [if_pos hm, if_pos ⟨List.mem_cons_of_mem a hm.1, hm.2⟩]
          · rw [if_neg hm, if_neg (fun hc : m ∈ a :: l ∧ q m = true =>
              hm ⟨(List.mem_cons.1 hc.1).resolve_left (fun he => ham he.symm), hc.2⟩)]
      · rw [if_neg hq, ih hnd']
        by_cases ham : a = m
        · subst ham
          rw [if_neg (fun hc : a ∈ l ∧ q a = true => hq hc.2),
            if_neg (fun hc : a ∈ a :: l ∧ q a = true => hq hc.2)]
        · by_cases hm : m ∈ l ∧ q m
          · rw [if_pos hm, if_pos ⟨List.mem_cons_of_mem a hm.1, hm.2⟩]
          · rw [if_neg hm, if_neg (fun hc : m ∈ a :: l ∧ q m = true =>
              hm ⟨(List.mem_cons.1 hc.1).resolve_left (fun he => ham he.symm), hc.2⟩)]

/-- Whether the document's `paths` object defines an operation at the given
path and method. -/
def definesPairB (d : OpenApiDocument) (p : Str) (m : Method) : Bool :=
  match recGet (d.paths.getD []) p with
  | some (some it) => (it.opFor m).isSome
  | some none => false
  | none => false

theorem pairs_countP (p : Str) (m : Method) :
    ∀ entries : List (Str × Option PathItem), (entries.map Prod.fst).Nodup →
      ((entries.flatMap pairsOf).countP fun pm => decide (pm = (p, m)))
        = if (match recGet entries p with
              | some (some it) => (it.opFor m).isSome
              | some none => false
              | none => false) = true then 1 else 0 := by
  intro entries
  induction entries with
  | nil => intro _; simp [recGet]
  | cons pe rest ih =>
      intro hnd
      rcases pe with ⟨k, item⟩
      rw [List.map_cons] at hnd
      have hk_rest : k ∉ rest.map Prod.fst := (List.nodup_cons.1 hnd).1
      have hnd' := (List.nodup_cons.1 hnd).2
      rw [List.flatMap_cons, List.countP_append, ih hnd']
      by_cases hk : k = p
      · subst hk
        have hr : recGet rest k = none := recGet_eq_none_of_not_mem hk_rest
        rw [hr]
        have hget : recGet ((k, item) :: rest) k = some item := by
          rw [recGet, if_pos rfl]
        rw [hget]
        cases item with
        | none => simp [pairsOf]
        | some it =>
            simp only [pairsOf]
            rw [List.countP_map]
            have hcong : ((HTTP_METHODS.filter fun mm => (it.opFor mm).isSome).countP
                  ((fun pm => decide (pm = (k, m))) ∘ fun mm => (k, mm)))
                = ((HTTP_METHODS.filter fun mm => (it.opFor mm).isSome).countP
                  fun mm => decide (mm = m)) := by
              apply List.countP_congr
              intro mm _
              simp [Function.comp, Prod.ext_iff]
            rw [hcong, countP_filter_eq_one _ m HTTP_METHODS (by decide)]
            have hmem : m ∈ HTTP_METHODS := by cases m <;> decide
            by_cases hop : (it.opFor m).isSome
            · rw [if_pos ⟨hmem, hop⟩, if_pos hop]
              simp
            · rw [if_neg (fun hc : m ∈ HTTP_METHODS ∧ _ => hop hc.2), if_neg hop]
              simp
      · have hget : recGet ((k, item) :: rest) p = recGet rest p := by
          rw [recGet, if_neg hk]
        rw [hget]
        have hz : (pairsOf (k, item)).countP (fun pm => decide (pm = (p, m))) = 0 := by
          rw [List.countP_eq_zero]
          intro pm hpm
          cases item with
          | none => cases hpm
          | some it =>
              simp only [pairsOf] at hpm
              rcases List.mem_map.1 hpm with ⟨mm, -, hmm⟩
              subst hmm
              simp [Prod.ext_iff, hk]
        rw [hz]
        omega

/-- Claim C8: extractOperations emits exactly one operation per (path, method)
pair the document defines, iterating paths in document key order and, within a
path item, methods in the fixed order GET, POST, PUT, PATCH, DELETE; on a
pure value two runs trivially coincide. -/
theorem claim_C8_operations (d : OpenApiDocument) :
    (((extractOperations d).map fun o => (o.path, o.method))
        = (d.paths.getD []).flatMap pairsOf)
      ∧ (∀ (p : Str) (m : Method), ((d.paths.getD []).map Prod.fst).Nodup →
          ((extractOperations d).countP fun o => decide ((o.path, o.method) = (p, m)))
            = if definesPairB d p m then 1 else 0) := by
  refine ⟨extractOperations_pairs d, ?_⟩
  intro p m hnd
  have h1 : ((extractOperations d).countP fun o => decide ((o.path, o.method) = (p, m)))
      = (((extractOperations d).map fun o => (o.path, o.method)).countP
          fun pm => decide (pm = (p, m))) := by
    rw [List.countP_map]
    rfl
  rw [h1, extractOperations_pairs d, pairs_countP p m _ hnd]
  rfl

/-- An operation object with every optional field absent. -/
def opPlain : OpenApiOperation := ⟨none, none, none, none, none⟩

/-- A path item defining GET and POST. -/
def itemPets : PathItem := ⟨some opPlain, some opPlain, none, none, none, none⟩

/-- A path item defining GET only. -/
def itemUsers : PathItem := ⟨some opPlain, none, none, none, none, none⟩

/-- A two-path document. -/
def docW : OpenApiDocument :=
  ⟨some [("/pets".toList, some itemPets), ("/users".toList, some itemUsers)]⟩

/-- Claim C8 witness: a two-path document, in which the first path defines
GET and POST, yields pairs in document-then-method order and per-pair counts
of one. -/
theorem claim_C8_witness :
    (((extractOperations docW).map fun o => (o.path, o.method))
        = [("/pets".toList, Method.get), ("/pets".toList, Method.post),
            ("/users".toList, Method.get)])
      ∧ ((docW.paths.getD []).map Prod.fst).Nodup
      ∧ ((extractOperations docW).countP
            fun o => decide ((o.path, o.method) = ("/pets".toList, Method.post))) = 1 :=
  ⟨((claim_C8_operations docW).1).trans (by decide),
    by decide,
    ((claim_C8_operations docW).2 "/pets".toList Method.post (by decide)).trans (by decide)⟩

/-! Claim C9: enum fields. -/

/-- A string schema with a one-element enum. -/
def enumSchema : OpenApiSchema :=
  .mk (some (.inl "string".toList)) none none (some [.vStr "available".toList]) none none none

/-- An object schema with a single enum property `status`. -/
def objEnumSchema : OpenApiSchema :=
  .mk (some (.inl "object".toList)) (some [("status".toList, enumSchema)]) none none none
    none none

/-- Claim C9 counterexample: `schemaToResourceMapperFields` (one of the two
cited producers) labels the enum option with the raw stringified value
`"available"`, not the title-cased `"Available"` the claim requires. -/
theorem claim_C9_counterexample :
    ((schemaToResourceMapperFields objEnumSchema none).map fun f => f.options)
        = [some [("available".toList, JsValue.vStr "available".toList)]]
      ∧ toDisplayName (jsToString (JsValue.vStr "available".toList)) = "Available".toList
      ∧ "available".toList ≠ "Available".toList := by
  refine ⟨by decide, by decide, by decide⟩

/-- Claim C9 (amended): in `schemaToNodeProperties` (via `convertProperty`) an
enum property becomes an options field whose option values are exactly the
enum array in order and whose labels are the title-cased stringified values;
`schemaToResourceMapperFields`, by contrast, keeps the raw stringified value
as the option label with no title-casing. -/
theorem claim_C9_amended :
    (∀ (name : Str) (schema : OpenApiSchema) (req : List Str) (opId : Str)
        (vs : List JsValue), schema.enumList = some vs →
        (convertProperty name schema req opId).type = "options".toList
          ∧ (convertProperty name schema req opId).options
              = some (vs.map fun v => (toDisplayName (jsToString v), v)))
      ∧ (∀ (schema : OpenApiSchema) (ct : Option Str)
          (props : List (Str × OpenApiSchema)),
          schema.type = some (.inl "object".toList) → schema.properties = some props →
          ((schemaToResourceMapperFields schema ct).map fun f => f.options)
            = props.map fun pe => pe.2.enumList.map fun vs =>
                vs.map fun v => (jsToString v, v)) := by
  constructor
  · intro name schema req opId vs he
    simp only [convertProperty, he]
    simp
  · intro schema ct props ht hp
    rw [schemaToResourceMapperFields, if_pos ht, hp]
    rw [show (match some props with
        | none => ([] : List RmField)
        | some props =>
            props.map fun pe =>
              let prop := pe.2
              let isBinaryFile : Bool :=
                decide (ct = some "multipart/form-data".toList) && isBinarySchema prop
              { id := pe.1
                displayName :=
                  toDisplayName pe.1 ++ (if isBinaryFile then " (Binary)".toList else [])
                required := (schema.requiredList.getD []).contains pe.1
                defaultMatch := false
                canBeUsedToMatch := false
                display := true
                type :=
                  if isBinaryFile then "string".toList else mapSchemaTypeToFieldType prop
                options := prop.enumList.map fun vs => vs.map fun v => (jsToString v, v) })
      = props.map fun pe =>
          let prop := pe.2
          let isBinaryFile : Bool :=
            decide (ct = some "multipart/form-data".toList) && isBinarySchema prop
          { id := pe.1
            displayName :=
              toDisplayName pe.1 ++ (if isBinaryFile then " (Binary)".toList else [])
            required := (schema.requiredList.getD []).contains pe.1
            defaultMatch := false
            canBeUsedToMatch := false
            display := true
            type := if isBinaryFile then "string".toList else mapSchemaTypeToFieldType prop
            options := prop.enumList.map fun vs => vs.map fun v => (jsToString v, v) }
      from rfl]
    rw [List.map_map]
    rfl

/-- Claim C9 witness: the enum `["available"]` yields the node-properties
option `(Available, available)` and the resource-mapper option label
`available`. -/
theorem claim_C9_witness :
    (convertProperty "status".toList enumSchema [] "op1".toList).options
        = some [("Available".toList, JsValue.vStr "available".toList)]
      ∧ ((schemaToResourceMapperFields objEnumSchema none).map fun f => f.options)
          = [some [("available".toList, JsValue.vStr "available".toList)]] :=
  ⟨((claim_C9_amended.1 "status".toList enumSchema [] "op1".toList
      [.vStr "available".toList] rfl).2).trans (by decide),
    (claim_C9_amended.2 objEnumSchema none [("status".toList, enumSchema)] rfl rfl).trans
      (by decide)⟩

/-! Claim C5: body attachment. -/

theorem applyBody_json_nonempty (o : RequestOptions) (bd : BodyData) (m : Rec JsValue)
    (h1 : bd.contentType = some "application/json".toList) (h2 : bd.data = .inl m)
    (h3 : m ≠ []) :
    applyBody o bd = { o with body := some (.inl m), json := some true } := by
  rcases bd with ⟨ct, data, bp⟩
  simp only at h1 h2
  subst h1
  subst h2
  simp only [applyBody]
  simp [h3]

theorem applyBody_no_content (o : RequestOptions) (bd : BodyData)
    (h : bd.contentType = none) : applyBody o bd = o := by
  rcases bd with ⟨ct, data, bp⟩
  simp only at h
  subst h
  rfl

/-- Claim C5: with a declared `application/json` body content type and a
non-empty mapping payload, the built request carries that mapping as its body
with the JSON flag set; with no declared content type, no body and no JSON
flag are attached whatever the payload holds. -/
theorem claim_C5_body (op : ParsedOperation) (base : Str) (bag : Rec JsValue)
    (creds : Option Credentials) (bd : BodyData) :
    (∀ m : Rec JsValue, bd.contentType = some "application/json".toList →
        bd.data = .inl m → m ≠ [] →
        (buildRequestOptions op base bag bd creds).body = some (.inl m)
          ∧ (buildRequestOptions op base bag bd creds).json = some true)
      ∧ (bd.contentType = none →
          (buildRequestOptions op base bag bd creds).body = none
            ∧ (buildRequestOptions op base bag bd creds).json = none) := by
  constructor
  · intro m h1 h2 h3
    constructor
    · show (buildRequestOptions op base bag bd creds).body = some (.inl m)
      simp only [buildRequestOptions]
      rw [applyBody_json_nonempty _ bd m h1 h2 h3]
    · show (buildRequestOptions op base bag bd creds).json = some true
      simp only [buildRequestOptions]
      rw [applyBody_json_nonempty _ bd m h1 h2 h3]
  · intro h
    constructor
    · show (buildRequestOptions op base bag bd creds).body = none
      simp only [buildRequestOptions]
      rw [applyBody_no_content _ bd h]
    · show (buildRequestOptions op base bag bd creds).json = none
      simp only [buildRequestOptions]
      rw [applyBody_no_content _ bd h]

/-- A base URL used in concrete scenarios. -/
def baseW : Str := "https://api.example.com/v1".toList

/-- A `POST /pets` operation with no parameters. -/
def opPets : ParsedOperation :=
  ⟨"createPet".toList, .post, "/pets".toList, [], [], [], none⟩

/-- A JSON payload `{name: "Fluffy", age: 3}`. -/
def bodyJsonW : BodyData :=
  ⟨some "application/json".toList,
    .inl [("name".toList, JsValue.vStr "Fluffy".toList), ("age".toList, JsValue.vNum 3)],
    none⟩

/-- Claim C5 witness: the petstore POST body scenario and the no-content-type
scenario. -/
theorem claim_C5_witness :
    ((buildRequestOptions opPets baseW [] bodyJsonW none).body
        = some (.inl [("name".toList, JsValue.vStr "Fluffy".toList),
            ("age".toList, JsValue.vNum 3)])
      ∧ (buildRequestOptions opPets baseW [] bodyJsonW none).json = some true)
      ∧ ((buildRequestOptions opPets baseW [] noBody none).body = none
        ∧ (buildRequestOptions opPets baseW [] noBody none).json = none) :=
  ⟨(claim_C5_body opPets baseW [] none bodyJsonW).1
      [("name".toList, JsValue.vStr "Fluffy".toList), ("age".toList, JsValue.vNum 3)]
      rfl rfl (by decide),
    (claim_C5_body opPets baseW [] none noBody).2 rfl⟩

/-! Header lemmas shared by claims C3 and C10. -/

/-- The headers before authentication: `Accept` plus, for a truthy content
type, `Content-Type`. -/
def baseHeaders (ct : Option Str) : Rec Str :=
  match ct with
  | some s =>
      if s = [] then [("Accept".toList, "application/json".toList)]
      else recSet [("Accept".toList, "application/json".toList)] "Content-Type".toList s
  | none => [("Accept".toList, "application/json".toList)]

theorem buildHeaders_none (ct : Option Str) : buildHeaders none ct = baseHeaders ct := by
  cases ct <;> rfl

theorem buildHeaders_some (c : Credentials) (ct : Option Str) :
    buildHeaders (some c) ct =
      if c.authType = some "apiKey".toList then
        (if c.apiKeyLocation = some "header".toList then
          recSet (baseHeaders ct) (c.apiKeyName.getD "X-API-Key".toList) (c.apiKey.getD [])
        else baseHeaders ct)
      else if c.authType = some "bearer".toList then
        recSet (baseHeaders ct) "Authorization".toList
          ("Bearer ".toList ++ optStr c.bearerToken)
      else if c.authType = some "basic".toList then
        recSet (baseHeaders ct) "Authorization".toList
          ("Basic ".toList ++
            base64Encode (utf8Str (optStr c.username ++ [':'] ++ optStr c.password)))
      else baseHeaders ct := by
  cases ct <;> rfl

theorem recSet_ct (s : Str) :
    recSet [("Accept".toList, "application/json".toList)] "Content-Type".toList s
      = [("Accept".toList, "application/json".toList), ("Content-Type".toList, s)] := by
  rw [recSet, if_neg (by decide)]
  rfl

theorem recGet_baseHeaders_accept (ct : Option Str) :
    recGet (baseHeaders ct) "Accept".toList = some "application/json".toList := by
  cases ct with
  | none => decide
  | some s =>
      rw [baseHeaders]
      by_cases hs : s = []
      · rw [if_pos hs]
        decide
      · rw [if_neg hs, recSet_ct, recGet, if_pos rfl]

theorem recGet_baseHeaders_ct_some {s : Str} (hs : s ≠ []) :
    recGet (baseHeaders (some s)) "Content-Type".toList = some s := by
  rw [baseHeaders, if_neg hs, recSet_ct, recGet, if_neg (by decide), recGet, if_pos rfl]

theorem recGet_baseHeaders_ct_none :
    recGet (baseHeaders none) "Content-Type".toList = none := by decide

theorem recGet_baseHeaders_other {n : Str} (ct : Option Str)
    (h1 : n ≠ "Accept".toList) (h2 : n ≠ "Content-Type".toList) :
    recGet (baseHeaders ct) n = none := by
  cases ct with
  | none => rw [baseHeaders, recGet, if_neg (fun hc => h1 hc.symm)]; rfl
  | some s =>
      rw [baseHeaders]
      by_cases hs : s = []
      · rw [if_pos hs, recGet, if_neg (fun hc => h1 hc.symm)]
        rfl
      · rw [if_neg hs, recSet_ct, recGet, if_neg (fun hc => h1 hc.symm), recGet,
          if_neg (fun hc => h2 hc.symm)]
        rfl

/-- Claim C10: absent secrets are injected verbatim and raise no error (the
embedding is a total function): a missing bearer token yields the literal
header value `Bearer undefined`; a missing API key with header location sets
the API-key header to the empty string; a missing API key with query location
creates a query entry whose value is `undefined`. -/
theorem claim_C10_degenerate (c : Credentials) (ct : Option Str) (bag : Rec JsValue)
    (used : List Str) :
    (c.authType = some "bearer".toList → c.bearerToken = none →
        recGet (buildHeaders (some c) ct) "Authorization".toList
          = some "Bearer undefined".toList)
      ∧ (c.authType = some "apiKey".toList → c.apiKeyLocation = some "header".toList →
          c.apiKey = none →
          recGet (buildHeaders (some c) ct) (c.apiKeyName.getD "X-API-Key".toList)
            = some [])
      ∧ (c.authType = some "apiKey".toList → c.apiKeyLocation = some "query".toList →
          c.apiKey = none →
          recGet (buildQueryString bag used (some c)) (c.apiKeyName.getD "api_key".toList)
            = some JsValue.undefined) := by
  refine ⟨?_, ?_, ?_⟩
  · intro h1 h2
    rw [buildHeaders_some, h1, if_neg (by decide), if_pos rfl, recGet_recSet_self, h2]
    decide
  · intro h1 h2 h3
    rw [buildHeaders_some, h1, if_pos rfl, h2, if_pos rfl, recGet_recSet_self, h3]
    rfl
  · intro h1 h2 h3
    rw [buildQueryString_auth ⟨h1, h2⟩, recGet_recSet_self, h3]
    rfl

/-- Credentials with authType apiKey and no other field. -/
def apiKeyBareW : Credentials :=
  ⟨some "apiKey".toList, none, some "query".toList, none, none, none, none⟩

/-- Credentials with authType bearer and no token. -/
def bearerBareW : Credentials :=
  ⟨some "bearer".toList, none, none, none, none, none, none⟩

/-- Credentials with authType apiKey, header location and no key. -/
def apiKeyHeaderBareW : Credentials :=
  ⟨some "apiKey".toList, none, some "header".toList, none, none, none, none⟩

/-- Claim C10 witness: the three degenerate injections at concrete
credentials. -/
theorem claim_C10_witness :
    recGet (buildHeaders (some bearerBareW) none) "Authorization".toList
        = some "Bearer undefined".toList
      ∧ recGet (buildHeaders (some apiKeyHeaderBareW) none)
          (apiKeyHeaderBareW.apiKeyName.getD "X-API-Key".toList) = some []
      ∧ recGet (buildQueryString [] [] (some apiKeyBareW))
          (apiKeyBareW.apiKeyName.getD "api_key".toList) = some JsValue.undefined :=
  ⟨(claim_C10_degenerate bearerBareW none [] []).1 rfl rfl,
    (claim_C10_degenerate apiKeyHeaderBareW none [] []).2.1 rfl rfl rfl,
    (claim_C10_degenerate apiKeyBareW none [] []).2.2 rfl rfl rfl⟩

/-- Claim C3: for every request built, the header map carries
`Accept: application/json`; `Content-Type` equals the declared body content
type exactly when one is declared; and authentication injects exactly the
header of the active scheme (API-key header, `Bearer {token}`,
`Basic {base64(username:password)}`), while `none` or absent credentials add
no auth header.  The two side conditions say the declared content type is
never the empty string (the four supported content types are non-empty) and
that a configured API-key header name does not shadow the two baseline
headers. -/
theorem claim_C3_headers (creds : Option Credentials) (ct : Option Str)
    (hct : ct ≠ some [])
    (hname : ∀ c, creds = some c → c.authType = some "apiKey".toList →
      c.apiKeyLocation = some "header".toList →
      c.apiKeyName.getD "X-API-Key".toList ≠ "Accept".toList
        ∧ c.apiKeyName.getD "X-API-Key".toList ≠ "Content-Type".toList) :
    (∀ (op : ParsedOperation) (base : Str) (bag : Rec JsValue) (bd : BodyData),
        bd.contentType = ct →
        (buildRequestOptions op base bag bd creds).headers = buildHeaders creds ct)
      ∧ recGet (buildHeaders creds ct) "Accept".toList = some "application/json".toList
      ∧ (∀ s, ct = some s →
          recGet (buildHeaders creds ct) "Content-Type".toList = some s)
      ∧ (ct = none → recGet (buildHeaders creds ct) "Content-Type".toList = none)
      ∧ (∀ c, creds = some c → c.authType = some "apiKey".toList →
          c.apiKeyLocation = some "header".toList →
          recGet (buildHeaders creds ct) (c.apiKeyName.getD "X-API-Key".toList)
            = some (c.apiKey.getD []))
      ∧ (∀ c, creds = some c → c.authType = some "bearer".toList →
          recGet (buildHeaders creds ct) "Authorization".toList
            = some ("Bearer ".toList ++ optStr c.bearerToken))
      ∧ (∀ c, creds = some c → c.authType = some "basic".toList →
          recGet (buildHeaders creds ct) "Authorization".toList
            = some ("Basic ".toList ++
                base64Encode (utf8Str (optStr c.username ++ [':'] ++ optStr c.password))))
      ∧ ((creds = none → buildHeaders creds ct = baseHeaders ct)
          ∧ (∀ c, creds = some c → c.authType = some "none".toList →
              buildHeaders creds ct = baseHeaders ct))
      ∧ recGet (baseHeaders ct) "Authorization".toList = none := by
  refine ⟨?_, ?_, ?_, ?_, ?_, ?_, ?_, ⟨?_, ?_⟩, ?_⟩
  · intro op base bag bd hbd
    rw [← hbd]
    exact (buildRequestOptions_proj op base bag bd creds).2.1
  · cases creds with
    | none => rw [buildHeaders_none]; exact recGet_baseHeaders_accept ct
    | some c =>
        rw [buildHeaders_some]
        by_cases ha : c.authType = some "apiKey".toList
        · rw [if_pos ha]
          by_cases hl : c.apiKeyLocation = some "header".toList
          · rw [if_pos hl, recGet_recSet_ne _ _ _ _
              (fun hc => (hname c rfl ha hl).1 hc.symm)]
            exact recGet_baseHeaders_accept ct
          · rw [if_neg hl]; exact recGet_baseHeaders_accept ct
        · rw [if_neg ha]
          by_cases hb : c.authType = some "bearer".toList
          · rw [if_pos hb, recGet_recSet_ne _ _ _ _ (by decide)]
            exact recGet_baseHeaders_accept ct
          · rw [if_neg hb]
            by_cases hba : c.authType = some "basic".toList
            · rw [if_pos hba, recGet_recSet_ne _ _ _ _ (by decide)]
              exact recGet_baseHeaders_accept ct
            · rw [if_neg hba]; exact recGet_baseHeaders_accept ct
  · intro s hs
    subst hs
    have hsne : s ≠ [] := fun he => hct (by rw [he])
    cases creds with
    | none => rw [buildHeaders_none]; exact recGet_baseHeaders_ct_some hsne
    | some c =>
        rw [buildHeaders_some]
        by_cases ha : c.authType = some "apiKey".toList
        · rw [if_pos ha]
          by_cases hl : c.apiKeyLocation = some "header".toList
          · rw [if_pos hl, recGet_recSet_ne _ _ _ _
              (fun hc => (hname c rfl ha hl).2 hc.symm)]
            exact recGet_baseHeaders_ct_some hsne
          · rw [if_neg hl]; exact recGet_baseHeaders_ct_some hsne
        · rw [if_neg ha]
          by_cases hb : c.authType = some "bearer".toList
          · rw [if_pos hb, recGet_recSet_ne _ _ _ _ (by decide)]
            exact recGet_baseHeaders_ct_some hsne
          · rw [if_neg hb]
            by_cases hba : c.authType = some "basic".toList
            · rw [if_pos hba, recGet_recSet_ne _ _ _ _ (by decide)]
              exact recGet_baseHeaders_ct_some hsne
            · rw [if_neg hba]; exact recGet_baseHeaders_ct_some hsne
  · intro h
    subst h
    cases creds with
    | none => rw [buildHeaders_none]; exact recGet_baseHeaders_ct_none
    | some c =>
        rw [buildHeaders_some]
        by_cases ha : c.authType = some "apiKey".toList
        · rw [if_pos ha]
          by_cases hl : c.apiKeyLocation = some "header".toList
          · rw [if_pos hl, recGet_recSet_ne _ _ _ _
              (fun hc => (hname c rfl ha hl).2 hc.symm)]
            exact recGet_baseHeaders_ct_none
          · rw [if_neg hl]; exact recGet_baseHeaders_ct_none
        · rw [if_neg ha]
          by_cases hb : c.authType = some "bearer".toList
          · rw [if_pos hb, recGet_recSet_ne _ _ _ _ (by decide)]
            exact recGet_baseHeaders_ct_none
          · rw [if_neg hb]
            by_cases hba : c.authType = some "basic".toList
            · rw [if_pos hba, recGet_recSet_ne _ _ _ _ (by decide)]
              exact recGet_baseHeaders_ct_none
            · rw [if_neg hba]; exact recGet_baseHeaders_ct_none
  · intro c hc ha hl
    subst hc
    rw [buildHeaders_some, if_pos ha, if_pos hl, recGet_recSet_self]
  · intro c hc hb
    subst hc
    rw [buildHeaders_some, hb, if_neg (by decide), if_pos rfl, recGet_recSet_self]
  · intro c hc hba
    subst hc
    rw [buildHeaders_some, hba, if_neg (by decide), if_neg (by decide), if_pos rfl,
      recGet_recSet_self]
  · intro h
    subst h
    exact buildHeaders_none ct
  · intro c hc hn
    subst hc
    rw [buildHeaders_some, hn, if_neg (by decide), if_neg (by decide), if_neg (by decide)]
  · exact recGet_baseHeaders_other ct (by decide) (by decide)

/-- Credentials holding a bearer token. -/
def bearerW : Credentials :=
  ⟨some "bearer".toList, none, none, none, some "tok".toList, none, none⟩

/-- Claim C3 witness: bearer credentials with a JSON body content type give
the `Bearer tok` authorization header, the baseline accept header, and the
declared content type. -/
theorem claim_C3_witness :
    recGet (buildHeaders (some bearerW) (some "application/json".toList))
        "Authorization".toList = some "Bearer tok".toList
      ∧ recGet (buildHeaders (some bearerW) (some "application/json".toList))
          "Accept".toList = some "application/json".toList
      ∧ recGet (buildHeaders (some bearerW) (some "application/json".toList))
          "Content-Type".toList = some "application/json".toList := by
  have hname : ∀ c, (some bearerW : Option Credentials) = some c →
      c.authType = some "apiKey".toList → c.apiKeyLocation = some "header".toList →
      c.apiKeyName.getD "X-API-Key".toList ≠ "Accept".toList
        ∧ c.apiKeyName.getD "X-API-Key".toList ≠ "Content-Type".toList := by
    intro c hc ha _
    injection hc with h
    subst h
    exact absurd ha (by decide)
  have h := claim_C3_headers (some bearerW) (some "application/json".toList)
    (by decide) hname
  exact ⟨(h.2.2.2.2.2.1 bearerW rfl rfl).trans (by decide),
    h.2.1, h.2.2.1 "application/json".toList rfl⟩

/-! Claims C2 and C6: URL templating. -/

/-- A template piece whose value, if it is a placeholder, is present in the
bag. -/
def paramPresent (bag : Rec JsValue) : TplPart → Prop
  | .par n => bagGet bag n ≠ JsValue.undefined
  | .lit _ => True

instance (bag : Rec JsValue) : DecidablePred (paramPresent bag) := fun p => by
  cases p <;> (unfold paramPresent; infer_instance)

/-- Every placeholder of the template has a present value in the bag. -/
def allParamsPresent (bag : Rec JsValue) (ps : List TplPart) : Prop :=
  ∀ p ∈ ps, paramPresent bag p

instance (bag : Rec JsValue) (ps : List TplPart) : Decidable (allParamsPresent bag ps) :=
  List.decidableBAll _ ps

theorem renderSub_all_defined {bag : Rec JsValue} {ps : List TplPart}
    (h : allParamsPresent bag ps) :
    renderSub bag ps
      = ps.flatMap fun p =>
          match p with
          | .lit s => s
          | .par n => encodeURIComponent (jsToString (bagGet bag n)) := by
  induction ps with
  | nil => rfl
  | cons p ps ih =>
      have hp := h p (List.mem_cons_self p ps)
      have hps : allParamsPresent bag ps := fun q hq => h q (List.mem_cons_of_mem p hq)
      rw [renderSub_cons, List.flatMap_cons, ih hps]
      cases p with
      | lit s => rfl
      | par n => rw [subPart_par_def, if_neg hp]

/-- Claim C2: a path template with no placeholder yields exactly
`baseUrl ++ path`; with a value present for every placeholder of a well-formed
template, every `{name}` occurrence is replaced by the percent-encoded
stringified value (numbers stringified first); and a space encodes as `%20`,
not `+`. -/
theorem claim_C2_url :
    (∀ (op : ParsedOperation) (base : Str) (bag : Rec JsValue) (bd : BodyData)
        (creds : Option Credentials), findMatches op.path = [] →
        (buildRequestOptions op base bag bd creds).url = base ++ op.path)
      ∧ (∀ (op : ParsedOperation) (base : Str) (bag : Rec JsValue) (bd : BodyData)
          (creds : Option Credentials) (ps : List TplPart), op.path = render ps →
          wfTpl ps → '{' ∉ base → allParamsPresent bag ps →
          (buildRequestOptions op base bag bd creds).url
            = base ++ ps.flatMap fun p =>
                match p with
                | .lit s => s
                | .par n => encodeURIComponent (jsToString (bagGet bag n)))
      ∧ encodeURIComponent (jsToString (JsValue.vStr "hello world".toList))
          = "hello%20world".toList
      ∧ encodeURIComponent (jsToString (JsValue.vNum 123)) = "123".toList := by
  refine ⟨?_, ?_, by decide, by decide⟩
  · intro op base bag bd creds h
    rw [(buildRequestOptions_proj op base bag bd creds).1, buildUrl, h, List.foldl_nil]
  · intro op base bag bd creds ps hpath hwf hb hall
    rw [(buildRequestOptions_proj op base bag bd creds).1, hpath, buildUrl_eq hb hwf]
    rw [show (base ++ renderSub bag ps,
        (paramNames ps).filter fun n => decide (bagGet bag n ≠ JsValue.undefined)).1
      = base ++ renderSub bag ps from rfl]
    rw [renderSub_all_defined hall]

/-- A `GET /pets/{petId}` operation. -/
def opGetPet : ParsedOperation :=
  ⟨"getPet".toList, .get, "/pets/{petId}".toList, [], [],
    [⟨"petId".toList, "path".toList, true, strSchema, []⟩], none⟩

/-- The template of `opGetPet`. -/
def psGetPet : List TplPart := [.lit "/pets/".toList, .par "petId".toList]

/-- Claim C2 witness: `GET /pets` concatenates exactly, and
`GET /pets/{petId}` with `{petId: 123}` yields
`https://api.example.com/v1/pets/123`. -/
theorem claim_C2_witness :
    findMatches opPets.path = []
      ∧ (buildRequestOptions opPets baseW [] noBody none).url
          = "https://api.example.com/v1/pets".toList
      ∧ opGetPet.path = render psGetPet
      ∧ wfTpl psGetPet
      ∧ '{' ∉ baseW
      ∧ allParamsPresent [("petId".toList, JsValue.vNum 123)] psGetPet
      ∧ (buildRequestOptions opGetPet baseW [("petId".toList, JsValue.vNum 123)]
          noBody none).url = "https://api.example.com/v1/pets/123".toList :=
  ⟨by decide,
    claim_C2_url.1 opPets baseW [] noBody none (by decide),
    by decide, by decide, by decide, by decide,
    (claim_C2_url.2.1 opGetPet baseW [("petId".toList, JsValue.vNum 123)] noBody none
      psGetPet (by decide) (by decide) (by decide) (by decide)).trans (by decide)⟩

/-- Claim C6: a path placeholder with no present value in the bag is left in
the URL as literal text (and request building, a total function here, raises
no error). -/
theorem claim_C6_missing_path_value (op : ParsedOperation) (base : Str)
    (bag : Rec JsValue) (bd : BodyData) (creds : Option Credentials)
    (ps : List TplPart) (n : Str) (hpath : op.path = render ps) (hwf : wfTpl ps)
    (hb : '{' ∉ base) (hmem : TplPart.par n ∈ ps)
    (hundef : bagGet bag n = JsValue.undefined) :
    List.IsInfix ('{' :: n ++ ['}']) (buildRequestOptions op base bag bd creds).url := by
  rw [(buildRequestOptions_proj op base bag bd creds).1, hpath, buildUrl_eq hb hwf]
  rw [show (base ++ renderSub bag ps,
      (paramNames ps).filter fun m => decide (bagGet bag m ≠ JsValue.undefined)).1
    = base ++ renderSub bag ps from rfl]
  obtain ⟨l1, l2, rfl⟩ := List.append_of_mem hmem
  refine ⟨base ++ renderSub bag l1, renderSub bag l2, ?_⟩
  rw [show renderSub bag (l1 ++ TplPart.par n :: l2)
      = renderSub bag l1 ++ subPart bag (.par n) ++ renderSub bag l2 by
    simp [renderSub]]
  rw [subPart_par_def, if_pos hundef]
  simp

/-- A `GET /x/{a}/{b}` operation. -/
def opTwoParams : ParsedOperation :=
  ⟨"two".toList, .get, "/x/{a}/{b}".toList, [], [],
    [⟨"a".toList, "path".toList, true, strSchema, []⟩,
      ⟨"b".toList, "path".toList, true, strSchema, []⟩], none⟩

/-- The template of `opTwoParams`. -/
def psTwoParams : List TplPart :=
  [.lit "/x/".toList, .par "a".toList, .lit "/".toList, .par "b".toList]

/-- Claim C6 witness: with only `a` supplied, `{b}` stays in the URL as
literal text. -/
theorem claim_C6_witness :
    List.IsInfix ('{' :: "b".toList ++ ['}'])
      (buildRequestOptions opTwoParams baseW [("a".toList, JsValue.vStr "1".toList)]
        noBody none).url :=
  claim_C6_missing_path_value opTwoParams baseW [("a".toList, JsValue.vStr "1".toList)]
    noBody none psTwoParams "b".toList (by decide) (by decide) (by decide)
    (by decide) (by decide)

/-! Claims C1 and C7: the query map. -/

theorem recGet_filter_used {used : List Str} {n : Str} (hn : n ∈ used) :
    ∀ bag : Rec JsValue, recGet (bag.filter (qsKeep used)) n = none := by
  intro bag
  induction bag with
  | nil => rfl
  | cons e bag ih =>
      rcases e with ⟨k, v⟩
      rw [List.filter_cons]
      by_cases hk : qsKeep used (k, v) = true
      · rw [if_pos hk, recGet]
        have hkn : ¬k = n := by
          intro hc
          subst hc
          simp [qsKeep] at hk
          exact hk.1.1 hn
        rw [if_neg hkn]
        exact ih
      · rw [if_neg hk]
        exact ih

theorem mem_paramNames {n : Str} {ps : List TplPart} (h : TplPart.par n ∈ ps) :
    n ∈ paramNames ps :=
  List.mem_flatMap.2 ⟨.par n, h, by simp⟩

/-- The operation of the C1 counterexample: a declared path-located parameter
`order` whose placeholder does not occur in the path template. -/
def opOrder : ParsedOperation :=
  ⟨"listPets".toList, .get, "/pets".toList, [], [],
    [⟨"order".toList, "path".toList, false, strSchema, []⟩], none⟩

/-- Claim C1 counterexample: every declared parameter of `opOrder` is
path-located, yet with `{order: "asc"}` in the value bag the built request's
query map contains the entry `order=asc` — the builder filters by
URL-substituted names, not by declared parameter location. -/
theorem claim_C1_counterexample :
    (∀ p ∈ opOrder.parameters, p.locIn = "path".toList)
      ∧ (buildRequestOptions opOrder baseW
          [("order".toList, JsValue.vStr "asc".toList)] noBody none).qs
        = some [("order".toList, JsValue.vStr "asc".toList)] :=
  ⟨by decide, by decide⟩

/-- Claim C1 (amended): the query map is the value bag filtered by name and
value — an entry survives exactly when its name was not substituted into the
path template (a placeholder name with a present value) and its value is
neither `undefined` nor the empty string.  In particular no entry has an
`undefined` or empty value, and a path placeholder with a present value never
appears; but exclusion is by substitution, not by declared location, so bag
entries for parameters of other locations do appear. -/
theorem claim_C1_amended (op : ParsedOperation) (base : Str) (bag : Rec JsValue)
    (bd : BodyData) (creds : Option Credentials) (ps : List TplPart)
    (hpath : op.path = render ps) (hwf : wfTpl ps) (hb : '{' ∉ base)
    (hnd : (bag.map Prod.fst).Nodup) (hauth : isApiKeyQueryAuth creds = false) :
    ((buildRequestOptions op base bag bd creds).qs
        = (if bag.filter (qsKeep ((paramNames ps).filter fun n =>
              decide (bagGet bag n ≠ JsValue.undefined))) = [] then none
           else some (bag.filter (qsKeep ((paramNames ps).filter fun n =>
              decide (bagGet bag n ≠ JsValue.undefined))))))
      ∧ (∀ q, (buildRequestOptions op base bag bd creds).qs = some q →
          ∀ e ∈ q, e.2 ≠ JsValue.undefined ∧ e.2 ≠ JsValue.vStr [])
      ∧ (∀ q n, (buildRequestOptions op base bag bd creds).qs = some q →
          TplPart.par n ∈ ps → bagGet bag n ≠ JsValue.undefined → recGet q n = none) := by
  have hused : (buildUrl base op.path bag).2
      = (paramNames ps).filter fun n => decide (bagGet bag n ≠ JsValue.undefined) := by
    rw [hpath, buildUrl_eq hb hwf]
  have hfilter : buildQueryString bag (buildUrl base op.path bag).2 creds
      = bag.filter (qsKeep ((paramNames ps).filter fun n =>
          decide (bagGet bag n ≠ JsValue.undefined))) := by
    rw [hused, buildQueryString_filter hnd hauth]
  have hqs := (buildRequestOptions_proj op base bag bd creds).2.2.1
  rw [hfilter] at hqs
  refine ⟨hqs, ?_, ?_⟩
  · intro q hq e he
    rw [hqs] at hq
    by_cases hempty : bag.filter (qsKeep ((paramNames ps).filter fun n =>
        decide (bagGet bag n ≠ JsValue.undefined))) = []
    · rw [if_pos hempty] at hq
      cases hq
    · rw [if_neg hempty] at hq
      injection hq with hq
      subst hq
      have := (List.mem_filter.1 he).2
      simp [qsKeep] at this
      exact ⟨this.1.2, this.2⟩
  · intro q n hq hmem hdef
    rw [hqs] at hq
    by_cases hempty : bag.filter (qsKeep ((paramNames ps).filter fun m =>
        decide (bagGet bag m ≠ JsValue.undefined))) = []
    · rw [if_pos hempty] at hq
      cases hq
    · rw [if_neg hempty] at hq
      injection hq with hq
      subst hq
      exact recGet_filter_used
        (List.mem_filter.2 ⟨mem_paramNames hmem, by simp [hdef]⟩) bag

/-- The template of `opPets`. -/
def psPets : List TplPart := [.lit "/pets".toList]

/-- Claim C1 witness: with bag `{limit: 10, status: ""}` on `GET /pets` the
query map keeps `limit` and drops the empty `status`. -/
theorem claim_C1_witness :
    opPets.path = render psPets
      ∧ wfTpl psPets
      ∧ '{' ∉ baseW
      ∧ (([("limit".toList, JsValue.vNum 10),
          ("status".toList, JsValue.vStr [])] : Rec JsValue).map Prod.fst).Nodup
      ∧ isApiKeyQueryAuth none = false
      ∧ (buildRequestOptions opPets baseW
          [("limit".toList, JsValue.vNum 10), ("status".toList, JsValue.vStr [])]
          noBody none).qs = some [("limit".toList, JsValue.vNum 10)] :=
  ⟨by decide, by decide, by decide, by decide, by decide,
    ((claim_C1_amended opPets baseW
      [("limit".toList, JsValue.vNum 10), ("status".toList, JsValue.vStr [])]
      noBody none psPets (by decide) (by decide) (by decide) (by decide)
      (by decide)).1).trans (by decide)⟩

/-- Query-located API-key credentials with default name and key `secret`. -/
def credsApiKeyQueryW : Credentials :=
  ⟨some "apiKey".toList, some "secret".toList, some "query".toList, none, none, none, none⟩

/-- Claim C7 counterexample: a declared query parameter named `api_key` with
value `userval` is present in the query map without credentials, but
query-located API-key credentials overwrite its entry in place — the key pair
is injected INSTEAD OF the declared parameter, and not after it. -/
theorem claim_C7_counterexample :
    buildQueryString [("api_key".toList, JsValue.vStr "userval".toList)] [] none
        = [("api_key".toList, JsValue.vStr "userval".toList)]
      ∧ buildQueryString [("api_key".toList, JsValue.vStr "userval".toList)] []
          (some credsApiKeyQueryW)
        = [("api_key".toList, JsValue.vStr "secret".toList)]
      ∧ ("api_key".toList, JsValue.vStr "userval".toList)
          ∉ buildQueryString [("api_key".toList, JsValue.vStr "userval".toList)] []
              (some credsApiKeyQueryW) :=
  ⟨by decide, by decide, by decide⟩

/-- Claim C7 (amended): with query-located API-key credentials the key/value
pair (name defaulting to `api_key`) is always readable from the query map;
every other key reads as without credentials; and when no entry with the key
name is already present, the pair is appended after all declared query
parameters.  A declared parameter sharing the key name is overwritten in
place instead. -/
theorem claim_C7_amended (bag : Rec JsValue) (used : List Str) (c : Credentials)
    (h1 : c.authType = some "apiKey".toList)
    (h2 : c.apiKeyLocation = some "query".toList) :
    recGet (buildQueryString bag used (some c)) (c.apiKeyName.getD "api_key".toList)
        = some (jsOfOpt c.apiKey)
      ∧ (∀ n, n ≠ c.apiKeyName.getD "api_key".toList →
          recGet (buildQueryString bag used (some c)) n
            = recGet (buildQueryString bag used none) n)
      ∧ (recGet (buildQueryString bag used none)
            (c.apiKeyName.getD "api_key".toList) = none →
          buildQueryString bag used (some c)
            = buildQueryString bag used none
                ++ [(c.apiKeyName.getD "api_key".toList, jsOfOpt c.apiKey)]) := by
  refine ⟨?_, ?_, ?_⟩
  · rw [buildQueryString_auth ⟨h1, h2⟩, recGet_recSet_self]
  · intro n hn
    rw [buildQueryString_auth ⟨h1, h2⟩, recGet_recSet_ne _ _ _ _ hn]
    rfl
  · intro h
    have h' : recGet (bag.foldl (qsStep used) [])
        (c.apiKeyName.getD "api_key".toList) = none := h
    rw [buildQueryString_auth ⟨h1, h2⟩, recSet_fresh _ _ _ h']
    rfl

/-- Claim C7 witness: with bag `{limit: 10}` the key pair is appended after
the declared parameter. -/
theorem claim_C7_witness :
    recGet (buildQueryString [("limit".toList, JsValue.vNum 10)] []
        (some credsApiKeyQueryW)) "api_key".toList
      = some (JsValue.vStr "secret".toList)
      ∧ buildQueryString [("limit".toList, JsValue.vNum 10)] [] (some credsApiKeyQueryW)
        = [("limit".toList, JsValue.vNum 10),
            ("api_key".toList, JsValue.vStr "secret".toList)] := by
  have h := claim_C7_amended [("limit".toList, JsValue.vNum 10)] [] credsApiKeyQueryW
    rfl rfl
  exact ⟨h.1, (h.2.2 (by decide)).trans (by decide)⟩

end OpenApiNode
